import Mathlib

/-!
bsky: rich-text rendering, timestamp parsing, session set-up, web command loop.

A shallow embedding of the parts of `pkg/util.go` and `pwa/main.go` that the
specification talks about, followed by the theorems that settle each claim.

Conventions of the embedding:

* Go `int64`/`int` values are `Int`; no arithmetic that could overflow is
  performed on them by the embedded code (only comparisons and assignments).
* `[]rune(text)` is `text.data`, the list of code points of the string.
* A Go run-time panic is `Except.error` carrying a `GoPanic`.
* Calls into libraries that are not part of the repository (`sort.Slice`, the
  remote session service, the file system, the browser storage) are parameters
  of the embedding. `sort.Slice` is constrained by its documented contract.
* `Timep` is embedded over an arbitrary `time.Parse`. For the round trip of
  timestamps, `time.Parse`, `time.Date` and `Time.Format` of Go's standard
  library are embedded as well, for the layout elements that occur in
  `formats` and in `time.RFC3339`.
-/

namespace Bsky

/-! ## Run-time failures -/

/-- The run-time panics the embedded code can raise. -/
inductive GoPanic where
  /-- Slice bounds out of range, raised by `rs[lo:hi]`. -/
  | sliceBounds (lo hi len : Int)
  /-- Index out of range, raised by `parts[i]`. -/
  | indexOutOfRange (i len : Nat)
  /-- An explicit `panic(s)`. -/
  | explicit (s : String)
  deriving DecidableEq, Repr

/-! ## `PrintPost`: the rich-text rendering loop (`pkg/util.go`, lines 32-58) -/

/-- The record `bsky.FeedPost_TextSlice`: a pair of `int64` offsets. -/
structure TextSlice where
  Start : Int
  End : Int
  deriving DecidableEq, Repr

/-- The record `bsky.FeedPost_Entity`; the Go field `Type` is `Typ` here. -/
structure Entity where
  Index : TextSlice
  Typ : String
  Value : String
  deriving DecidableEq, Repr

/-- The terminal attribute in force while a piece is printed: `color.Reset`,
`color.Bold` or `color.Underline`. -/
inductive Style where
  | plain
  | bold
  | underline
  deriving DecidableEq, Repr

/-- One `fmt.Print` of the rendering loop: the attribute in force and the
string printed. -/
structure Piece where
  style : Style
  text : String
  deriving DecidableEq, Repr

/-- The slice expression `rs[lo:hi]` followed by `string(...)`: it panics
unless `0 ≤ lo ≤ hi ≤ len(rs)`.  (The capacity of `[]rune(text)` is taken to
be its length.) -/
def sliceRunes (rs : List Char) (lo hi : Int) : Except GoPanic String :=
  if 0 ≤ lo ∧ lo ≤ hi ∧ hi ≤ (rs.length : Int) then
    .ok (String.mk ((rs.drop lo.toNat).take (hi.toNat - lo.toNat)))
  else
    .error (.sliceBounds lo hi rs.length)

/-- Lines 39-41: `if e.Index.Start < 0 { e.Index.Start = 0 }`. -/
def clampStart (e : Entity) : Int :=
  if e.Index.Start < 0 then 0 else e.Index.Start

/-- Lines 42-44: `if e.Index.End > len(rs) { e.Index.End = len(rs) }`. -/
def clampEnd (rs : List Char) (e : Entity) : Int :=
  if e.Index.End > (rs.length : Int) then (rs.length : Int) else e.Index.End

/-- Lines 46-50: bold for a mention, underline for every other entity type. -/
def entityStyle (e : Entity) : Style :=
  if e.Typ = "mention" then .bold else .underline

/-- Lines 38-57: the loop over the (already sorted) entities with cursor `off`,
followed by the trailing print of lines 55-57. The result is the list of
pieces printed, in order. -/
def renderLoop (rs : List Char) : List Entity → Int → Except GoPanic (List Piece)
  | [], off =>
    if off < (rs.length : Int) then
      (sliceRunes rs off rs.length).map (fun s => [⟨.plain, s⟩])
    else
      .ok []
  | e :: es, off =>
    match sliceRunes rs off (clampStart e) with
    | .error p => .error p
    | .ok pre =>
      match sliceRunes rs (clampStart e) (clampEnd rs e) with
      | .error p => .error p
      | .ok body =>
        match renderLoop rs es (clampEnd rs e) with
        | .error p => .error p
        | .ok rest => .ok (⟨.plain, pre⟩ :: ⟨entityStyle e, body⟩ :: rest)

/-- The comparison handed to `sort.Slice` on line 34. -/
def startLess (a b : Entity) : Prop := a.Index.Start < b.Index.Start

instance : DecidableRel startLess := fun a b =>
  inferInstanceAs (Decidable (a.Index.Start < b.Index.Start))

/-- The documented contract of the library call `sort.Slice(x, less)`: the
slice is rearranged (a permutation) so that no element is `less` than an
element before it. The order of elements that compare equal is not part of
the contract. -/
def IsSortSlice (sortSlice : List Entity → List Entity) : Prop :=
  ∀ es, (sortSlice es).Perm es ∧ (sortSlice es).Pairwise (fun a b => ¬ startLess b a)

/-- Lines 32-58 for a record whose `Entities` is not nil: sort by `Start`,
convert the text to runes, run the loop from cursor 0. -/
def renderEntities (sortSlice : List Entity → List Entity) (text : String)
    (entities : List Entity) : Except GoPanic (List Piece) :=
  renderLoop text.data (sortSlice entities) 0

/-- The text part of `PrintPost` (lines 32-64): a nil `Entities` prints the
text as it is. -/
def printPostText (sortSlice : List Entity → List Entity) (text : String) :
    Option (List Entity) → Except GoPanic (List Piece)
  | none => .ok [⟨.plain, text⟩]
  | some entities => renderEntities sortSlice text entities

/-- The order `≤` on `Start`, used to build instances of `sort.Slice`. -/
def startLE (a b : Entity) : Prop := a.Index.Start ≤ b.Index.Start

instance : DecidableRel startLE := fun a b =>
  inferInstanceAs (Decidable (a.Index.Start ≤ b.Index.Start))

instance : IsTotal Entity startLE := ⟨fun a b => Int.le_total a.Index.Start b.Index.Start⟩

instance : IsTrans Entity startLE := ⟨fun _ _ _ h₁ h₂ => Int.le_trans h₁ h₂⟩

/-- The concatenation of the pieces, in emission order. -/
def piecesText (ps : List Piece) : String :=
  String.join (ps.map (fun p => p.text))

/-- The offset (in code points) at which the piece with index `k` begins. -/
def pieceOffset (ps : List Piece) (k : Nat) : Nat :=
  ((ps.take k).map (fun p => p.text.length)).sum

/-! ## `MakeXRPCC`: obtaining a session (`pkg/util.go`, lines 122-172) -/

/-- The record `xrpc.AuthInfo`, the credential kept in the client and in the
auth file. -/
structure AuthInfo where
  AccessJwt : String
  RefreshJwt : String
  Handle : String
  Did : String
  deriving DecidableEq, Repr

/-- The fields of `ServerRefreshSession_Output` and `ServerCreateSession_Output`
that `MakeXRPCC` reads. -/
structure SessionOutput where
  AccessJwt : String
  Did : String
  RefreshJwt : String
  deriving DecidableEq, Repr

/-- The fields of `Config` that `MakeXRPCC` reads. -/
structure Config where
  Host : String
  Handle : String
  Password : String
  dir : String
  Prefix : String
  deriving DecidableEq, Repr

/-- The record `xrpc.Client`, without its HTTP transport. -/
structure Client where
  Host : String
  Auth : AuthInfo
  deriving DecidableEq, Repr

/-- The collaborators of `MakeXRPCC` that are not part of the repository: the
remote session service (its answers may depend on the whole client, which
carries the bearer token), `os.WriteFile` (`none` is success, `some e` the
error) and `filepath.Join`. -/
structure SessionEnv where
  filepathJoin : String → String → String
  refreshSession : Client → Except String SessionOutput
  createSession : Client → String → String → Except String SessionOutput
  writeFile : String → AuthInfo → Option String

/-- The credential store: for each path the credential that `cliutil.ReadAuth`
decodes from the file, `none` when the file is missing or cannot be decoded.
The JSON text of a credential is identified with the credential. -/
abbrev Files := String → Option AuthInfo

/-- The calls `MakeXRPCC` makes on its collaborators, in order. -/
inductive Call where
  | readAuth (path : String)
  | refreshSession (bearer : String)
  | createSession (identifier password : String)
  | writeFile (path : String) (content : AuthInfo)
  deriving DecidableEq, Repr

/-- The two errors `MakeXRPCC` returns: "cannot write auth file: ..." and
"cannot create session: ...". -/
inductive MakeError where
  | cannotWriteAuthFile (cause : String)
  | cannotCreateSession (cause : String)
  deriving DecidableEq, Repr

/-- What one call of `MakeXRPCC` leaves behind: the pair it returns (a client,
or `nil` and an error), the credential store, and the calls made. -/
structure Outcome where
  result : Except MakeError Client
  files : Files
  calls : List Call

/-- The expression `filepath.Join(cfg.dir, cfg.Prefix+cfg.Handle+".auth")`. -/
def authPath (env : SessionEnv) (cfg : Config) : String :=
  env.filepathJoin cfg.dir (cfg.Prefix ++ cfg.Handle ++ ".auth")

/-- The store after `os.WriteFile(path, b, 0600)` succeeded. -/
def Files.write (files : Files) (path : String) (a : AuthInfo) : Files :=
  fun q => if q = path then some a else files q

/-- Assignment of `Did`, `AccessJwt` and `RefreshJwt` from a session output
(lines 139-141 and 159-161). -/
def Client.setSession (xrpcc : Client) (out : SessionOutput) : Client :=
  { xrpcc with Auth := { xrpcc.Auth with
      Did := out.Did, AccessJwt := out.AccessJwt, RefreshJwt := out.RefreshJwt } }

/-- Lines 143-148 and 163-168: marshal the credential (this cannot fail for a
record of four strings) and write the auth file; a failed write returns
`nil` and "cannot write auth file", and is taken to leave the file as it was. -/
def saveAuth (env : SessionEnv) (cfg : Config) (files : Files) (xrpcc : Client)
    (calls : List Call) : Outcome :=
  let path := authPath env cfg
  match env.writeFile path xrpcc.Auth with
  | some e => ⟨.error (.cannotWriteAuthFile e), files, calls ++ [.writeFile path xrpcc.Auth]⟩
  | none => ⟨.ok xrpcc, files.write path xrpcc.Auth, calls ++ [.writeFile path xrpcc.Auth]⟩

/-- Lines 151-169, the branch `err != nil`: password login with the handle
held in the client. -/
def createSessionBranch (env : SessionEnv) (cfg : Config) (files : Files) (xrpcc : Client)
    (calls : List Call) : Outcome :=
  let calls := calls ++ [.createSession xrpcc.Auth.Handle cfg.Password]
  match env.createSession xrpcc xrpcc.Auth.Handle cfg.Password with
  | .error e => ⟨.error (.cannotCreateSession e), files, calls⟩
  | .ok auth => saveAuth env cfg files (xrpcc.setSession auth) calls

/-- The function `MakeXRPCC` of `pkg/util.go`, with the configuration taken
out of the CLI context. -/
def MakeXRPCC (env : SessionEnv) (cfg : Config) (files : Files) : Outcome :=
  let xrpcc : Client := ⟨cfg.Host, ⟨"", "", cfg.Handle, ""⟩⟩
  let path := authPath env cfg
  match files path with
  | none => createSessionBranch env cfg files xrpcc [.readAuth path]
  | some auth =>
    let xrpcc : Client := { xrpcc with Auth := { auth with AccessJwt := auth.RefreshJwt } }
    let calls := [.readAuth path, .refreshSession xrpcc.Auth.AccessJwt]
    match env.refreshSession xrpcc with
    | .error _ => createSessionBranch env cfg files xrpcc calls
    | .ok refresh => saveAuth env cfg files (xrpcc.setSession refresh) calls

/-- Whether a call is a write of the credential store. -/
def Call.isWrite : Call → Bool
  | .writeFile _ _ => true
  | _ => false

/-- Whether a call is a "create session" call. -/
def Call.isCreate : Call → Bool
  | .createSession _ _ => true
  | _ => false

/-- Whether a call is a "refresh session" call. -/
def Call.isRefresh : Call → Bool
  | .refreshSession _ => true
  | _ => false

/-! ## `Timep`: the timestamp layouts tried in order (`pkg/util.go`, lines 90-106) -/

/-- The variable `formats`: the layouts `Timep` accepts, in the order tried. -/
def formats : List String :=
  ["2006-01-02T15:04:05",
   "2006-01-02T15:04:05Z",
   "2006-01-02T15:04:05.000Z",
   "2006-01-02T15:04:05.000000Z",
   "2006-01-02T15:04:05-07:00"]

/-- The loop of `Timep` over the layouts still to try: the first layout that
`time.Parse` accepts gives the result, converted with `Local()`; when none is
left the function panics with the input. `parse layout s` is `time.Parse`. -/
def timepLoop {T E : Type} (parse : String → String → Except E T) (toLocal : T → T)
    (s : String) : List String → Except GoPanic T
  | [] => .error (.explicit s)
  | f :: fs =>
    match parse f s with
    | .ok t => .ok (toLocal t)
    | .error _ => timepLoop parse toLocal s fs

/-- The function `Timep` of `pkg/util.go`, over the library functions
`time.Parse` and `Time.Local`. -/
def Timep {T E : Type} (parse : String → String → Except E T) (toLocal : T → T)
    (s : String) : Except GoPanic T :=
  timepLoop parse toLocal s formats

/-! ## `OnEnterCommand`: the command loop of the web client (`pwa/main.go`, lines 73-187) -/

/-- The predicate `unicode.IsSpace`. -/
def isSpace (c : Char) : Bool :=
  let n := c.toNat
  (0x09 ≤ n && n ≤ 0x0D) || n == 0x20 || n == 0x85 || n == 0xA0 || n == 0x1680 ||
  (0x2000 ≤ n && n ≤ 0x200A) || n == 0x2028 || n == 0x2029 || n == 0x202F ||
  n == 0x205F || n == 0x3000

/-- The scan of `strings.Fields`: `cur` holds, reversed, the characters of the
field being read. -/
def fieldsAux : List Char → List Char → List String
  | [], cur => if cur.isEmpty then [] else [String.mk cur.reverse]
  | c :: cs, cur =>
    if isSpace c then
      if cur.isEmpty then fieldsAux cs [] else String.mk cur.reverse :: fieldsAux cs []
    else
      fieldsAux cs (c :: cur)

/-- The library function `strings.Fields`: the maximal runs of characters that
are not white space. -/
def Fields (s : String) : List String :=
  fieldsAux s.data []

/-- The index expression `parts[i]`, which panics when `i` is out of range. -/
def indexParts (parts : List String) (i : Nat) : Except GoPanic String :=
  match parts[i]? with
  | some p => .ok p
  | none => .error (.indexOutOfRange i parts.length)

/-- The record `pkg.XRPCManager` as `getXRPCManager` builds it: the handle and
password of its `Config` (host and BGS are constants). -/
structure XRPCManager where
  Handle : String
  Password : String
  deriving DecidableEq, Repr

/-- The component `CommandApp`. -/
structure CommandApp where
  commands : List String
  input : String
  manager : Option XRPCManager
  deriving DecidableEq, Repr

/-- The collaborators of the command loop that are not in the source files at
hand: the browser's local storage (state `S`), `XRPCManager.MakeXRPCC`,
`pkg.DoFollow`, `pkg.DoFollows` (which is also called with a nil client,
`none`), and the `%+v` rendering of an error. -/
structure AppEnv (S C : Type) where
  storageSet : S → String → String → S
  storageGet : S → String → Except String String
  makeXRPCC : XRPCManager → S → Except String C × S
  doFollow : C → String → S → Except String String × S
  doFollows : Option C → String → S → Except String String × S
  showError : String → String

/-- The function `fakeCommandExecution` (its half-second sleep left out). -/
def fakeCommandExecution (command : String) : String :=
  "Executed command \x27" ++ command ++ "\x27 successfully."

/-- The method `getXRPCManager`: the cached manager, or one built from the
stored handle and password. -/
def getXRPCManager {S C : Type} (env : AppEnv S C) (a : CommandApp) (st : S) :
    Except String XRPCManager × CommandApp :=
  match a.manager with
  | some m => (.ok m, a)
  | none =>
    match env.storageGet st "handle" with
    | .error e => (.error ("failed to get handle from local storage: " ++ e), a)
    | .ok handle =>
      match env.storageGet st "password" with
      | .error e => (.error ("failed to get password from local storage: " ++ e), a)
      | .ok password => (.ok ⟨handle, password⟩, { a with manager := some ⟨handle, password⟩ })

/-- The method `handleFollow`: the returned error (if any), the component and
the storage. -/
def handleFollow {S C : Type} (env : AppEnv S C) (a : CommandApp) (st : S) :
    Option String × CommandApp × S :=
  match getXRPCManager env a st with
  | (.error e, a) => (some e, a, st)
  | (.ok m, a) =>
    match env.makeXRPCC m st with
    | (.error e, st) => (some e, a, st)
    | (.ok client, st) =>
      match Fields a.input with
      | [_, target] =>
        match env.doFollow client target st with
        | (.error e, st) =>
          (none, { a with commands := a.commands ++
            ["Failed to DoFollows: " ++ env.showError e] }, st)
        | (.ok w, st) =>
          (none, { a with commands := a.commands ++
            ["Command: " ++ a.input ++ "\nOutput: " ++ w] }, st)
      | _ =>
        (none, { a with commands := a.commands ++
          ["Invalid command format. Use: follow <URI"] }, st)

/-- The branch `case "follows"` of `OnEnterCommand`. -/
def followsBranch {S C : Type} (env : AppEnv S C) (a : CommandApp) (st : S) :
    Option String × CommandApp × S :=
  let a := { a with commands := a.commands ++
    ["Command: " ++ a.input ++ "\nOutput: " ++ fakeCommandExecution a.input] }
  match env.storageGet st "handle" with
  | .error e => (some ("failed to get handle from local storage: " ++ e), a, st)
  | .ok handle =>
    match env.storageGet st "password" with
    | .error e => (some ("failed to get password from local storage: " ++ e), a, st)
    | .ok password =>
      let made := env.makeXRPCC ⟨handle, password⟩ st
      let a : CommandApp :=
        match made.1 with
        | .error e => { a with commands := a.commands ++
            ["Failed to MakeXRPCC: " ++ env.showError e] }
        | .ok _ => a
      match env.doFollows made.1.toOption handle made.2 with
      | (.error e, st) =>
        (none, { a with commands := a.commands ++
          ["Failed to DoFollows: " ++ env.showError e] }, st)
      | (.ok w, st) =>
        (none, { a with commands := a.commands ++
          ["Command: " ++ a.input ++ "\nOutput: " ++ w] }, st)

/-- The closure of lines 81-145: the `switch` on the command. -/
def runCommand {S C : Type} (env : AppEnv S C) (a : CommandApp) (st : S)
    (parts : List String) (command : String) : Except GoPanic (Option String × CommandApp × S) :=
  if command = "login" then
    match indexParts parts 1 with
    | .error p => .error p
    | .ok handle =>
      match indexParts parts 2 with
      | .error p => .error p
      | .ok password =>
        let st := env.storageSet (env.storageSet st "handle" handle) "password" password
        .ok (none, { a with commands := a.commands ++
          ["Command: " ++ a.input ++ "\nOutput: Login credentials stored"] }, st)
  else if command = "follow" then
    .ok (handleFollow env a st)
  else if command = "follows" then
    .ok (followsBranch env a st)
  else
    .ok (none, { a with commands := a.commands ++ ["Unrecognized command " ++ command] }, st)

/-- The method `OnEnterCommand`. -/
def OnEnterCommand {S C : Type} (env : AppEnv S C) (a : CommandApp) (st : S) :
    Except GoPanic (CommandApp × S) :=
  if a.input ≠ "" then
    let parts := Fields a.input
    match indexParts parts 0 with
    | .error p => .error p
    | .ok command =>
      match runCommand env a st parts command with
      | .error p => .error p
      | .ok (err, a, st) =>
        let a : CommandApp :=
          match err with
          | some e => { a with commands := a.commands ++ ["Error: " ++ env.showError e] }
          | none => a
        .ok ({ a with input := "" }, st)
  else
    .ok (a, st)

/-! ## The library `time`

The functions of the standard library package `time` that `Timep` and
`TestTimep` call: `Parse`, `Date`, `Time.Format`, `Time.Local`, `Time.UTC`, with
the calendar arithmetic of `daysSinceEpoch` and `absDate`. A time is an instant
(Unix seconds, nanoseconds) with a location; the rule of the local zone is a
parameter `localOffset`. Layouts are restricted to the elements that occur in
`formats` and in `time.RFC3339`; strings are read as lists of characters (all
characters that such a layout accepts are ASCII). -/

/-- The constant `absoluteZeroYear`. -/
def absoluteZeroYear : Int := -292277022399

/-- The constant `unixToInternal + internalToAbsolute`, in seconds. -/
def unixToAbsolute : Int := 62135596800 + 9223371966579724800

/-- Conversion to `uint64`. -/
def toUint64 (x : Int) : Nat := (x % 18446744073709551616).toNat

/-- Conversion to `int64`. -/
def toInt64 (x : Int) : Int :=
  (x + 9223372036854775808) % 18446744073709551616 - 9223372036854775808

/-- The function `isLeap`. -/
def isLeap (year : Int) : Bool :=
  year % 4 == 0 && (year % 100 != 0 || year % 400 == 0)

/-- The table `daysBefore`: days in a non-leap year before month `m + 1`. -/
def daysBefore : Nat → Nat
  | 0 => 0
  | 1 => 31
  | 2 => 59
  | 3 => 90
  | 4 => 120
  | 5 => 151
  | 6 => 181
  | 7 => 212
  | 8 => 243
  | 9 => 273
  | 10 => 304
  | 11 => 334
  | _ => 365

/-- The function `daysIn`. -/
def daysIn (month : Nat) (year : Int) : Nat :=
  if month = 2 ∧ isLeap year = true then 29 else daysBefore month - daysBefore (month - 1)

/-- The function `daysSinceEpoch`: days from the absolute epoch to the start
of `year`. -/
def daysSinceEpoch (year : Int) : Nat :=
  let y := toUint64 (year - absoluteZeroYear)
  let n := y / 400
  let y := y - 400 * n
  let d := 146097 * n
  let n := y / 100
  let y := y - 100 * n
  let d := d + 36524 * n
  let n := y / 4
  let y := y - 4 * n
  let d := d + 1461 * n
  d + 365 * y

/-- The function `norm`. -/
def norm (hi lo base : Int) : Int × Int :=
  let (hi, lo) :=
    if lo < 0 then
      let n := (-lo - 1) / base + 1
      (hi - n, lo + n * base)
    else (hi, lo)
  if lo ≥ base then
    let n := lo / base
    (hi + n, lo - n * base)
  else (hi, lo)

/-- The Unix time computed by `Date(year, month, day, hour, min, sec, nsec, UTC)`,
with the nanoseconds left. -/
def dateUnix (year month day hour min sec nsec : Int) : Int × Int :=
  let (year, m) := norm year (month - 1) 12
  let month := m + 1
  let (sec, nsec) := norm sec nsec 1000000000
  let (min, sec) := norm min sec 60
  let (hour, min) := norm hour min 60
  let (day, hour) := norm day hour 24
  let d : Int := daysSinceEpoch year
  let d := d + daysBefore (month - 1).toNat
  let d := if isLeap year && month ≥ 3 then d + 1 else d
  let d := d + (day - 1)
  let abs := toUint64 (d * 86400 + (hour * 3600 + min * 60 + sec))
  (toInt64 ((abs : Int) - unixToAbsolute), nsec)

/-- The year and the day of the year computed by `absDate`, from the days
since the absolute epoch. -/
def absYear (days : Nat) : Int × Nat :=
  let d := days
  let n := d / 146097
  let y := 400 * n
  let d := d - 146097 * n
  let n := d / 36524
  let n := n - n / 4
  let y := y + 100 * n
  let d := d - 36524 * n
  let n := d / 1461
  let y := y + 4 * n
  let d := d - 1461 * n
  let n := d / 365
  let n := n - n / 4
  let y := y + n
  let d := d - 365 * n
  (toInt64 ((y : Int) + absoluteZeroYear), d)

/-- The month and the day of the month computed by `absDate`. -/
def absMonthDay (year : Int) (yday : Nat) : Nat × Nat :=
  if isLeap year && yday == 31 + 29 - 1 then (2, 29)
  else
    let day := if isLeap year && yday > 31 + 29 - 1 then yday - 1 else yday
    let month := day / 31
    let e := daysBefore (month + 1)
    if day ≥ e then (month + 2, day - e + 1)
    else (month + 1, day - daysBefore month + 1)

/-- A location: UTC, the local zone, or a zone of fixed offset (seconds east
of UTC). -/
inductive Location where
  | utc
  | localZone
  | fixed (offset : Int)
  deriving DecidableEq, Repr

/-- A `time.Time`: an instant (Unix seconds and nanoseconds) and a location. -/
structure Time where
  sec : Int
  nsec : Nat
  loc : Location
  deriving DecidableEq, Repr

/-- The method `Local`. -/
def Time.Local (t : Time) : Time := { t with loc := .localZone }

/-- The method `UTC`. -/
def Time.UTC (t : Time) : Time := { t with loc := .utc }

/-- The offset in force at an instant in a location; `localOffset` is the
rule of the local zone. -/
def Location.offsetAt (localOffset : Int → Int) : Location → Int → Int
  | .utc, _ => 0
  | .localZone, sec => localOffset sec
  | .fixed o, _ => o

/-! ### Layouts -/

/-- The layout elements that occur in the layouts used here. -/
inductive Std where
  | stdLongYear
  | stdZeroMonth
  | stdZeroDay
  | stdHour
  | stdZeroMinute
  | stdZeroSecond
  | stdFracSecond0 (digits : Nat)
  | stdNumColonTZ
  | stdISO8601ColonTZ
  deriving DecidableEq, Repr

/-- Whether `p` is a prefix of `l`, and the rest. -/
def stripPrefix (p l : List Char) : Option (List Char) :=
  if p.isPrefixOf l then some (l.drop p.length) else none

/-- The element a layout starts with, if it starts with one, and the layout
after it. Only the elements of `Std` are recognised. -/
def stdAt (layout : List Char) : Option (Std × List Char) :=
  match stripPrefix "2006".data layout with
  | some r => some (.stdLongYear, r)
  | none =>
  match stripPrefix "01".data layout with
  | some r => some (.stdZeroMonth, r)
  | none =>
  match stripPrefix "02".data layout with
  | some r => some (.stdZeroDay, r)
  | none =>
  match stripPrefix "15".data layout with
  | some r => some (.stdHour, r)
  | none =>
  match stripPrefix "04".data layout with
  | some r => some (.stdZeroMinute, r)
  | none =>
  match stripPrefix "05".data layout with
  | some r => some (.stdZeroSecond, r)
  | none =>
  match stripPrefix "-07:00".data layout with
  | some r => some (.stdNumColonTZ, r)
  | none =>
  match stripPrefix "Z07:00".data layout with
  | some r => some (.stdISO8601ColonTZ, r)
  | none =>
  match layout with
  | '.' :: '0' :: r =>
    let zeros := r.takeWhile (· == '0')
    let rest := r.dropWhile (· == '0')
    match rest with
    | c :: _ => if c.isDigit then none else some (.stdFracSecond0 (zeros.length + 1), rest)
    | [] => some (.stdFracSecond0 (zeros.length + 1), rest)
  | _ => none

/-- The function `nextStdChunk`, iterated: the layout as a list of literal
prefixes each followed by an element, and the literal text at the end. -/
def layoutChunks : Nat → List Char → List Char → List (List Char × Std) × List Char
  | 0, _, lit => ([], lit.reverse)
  | _ + 1, [], lit => ([], lit.reverse)
  | fuel + 1, c :: cs, lit =>
    match stdAt (c :: cs) with
    | some (std, rest) =>
      let (chunks, tail) := layoutChunks fuel rest []
      ((lit.reverse, std) :: chunks, tail)
    | none => layoutChunks fuel cs (c :: lit)

/-- The chunks of a layout. -/
def chunksOf (layout : String) : List (List Char × Std) × List Char :=
  layoutChunks layout.length layout.data []

/-! ### Parsing -/

/-- The test `'0' <= c && c <= '9'`. -/
def isDigitChar (c : Char) : Bool := 48 ≤ c.toNat && c.toNat ≤ 57

/-- The value `c - '0'` of a digit. -/
def digitVal (c : Char) : Nat := c.toNat - 48

/-- The function `getnum`: a number of one or two digits (exactly two when
`fixed`), and the rest of the string. -/
def getnum (s : List Char) (fixed : Bool) : Option (Nat × List Char) :=
  match s with
  | [] => none
  | [c] => if isDigitChar c && !fixed then some (digitVal c, []) else none
  | c :: c2 :: rest =>
    if !isDigitChar c then none
    else if !isDigitChar c2 then
      if fixed then none else some (digitVal c, c2 :: rest)
    else some (digitVal c * 10 + digitVal c2, rest)

/-- The function `leadingInt`, without its overflow checks (it is applied to
at most nine characters here): the value of the leading digits and the rest. -/
def leadingInt : List Char → Nat → Nat × List Char
  | [], x => (x, [])
  | c :: cs, x => if isDigitChar c then leadingInt cs (x * 10 + digitVal c) else (x, c :: cs)

/-- The number that `atoi` reads after the sign: the string must be all digits. -/
def atoiDigits (s : List Char) : Option Nat :=
  match leadingInt s 0 with
  | (x, []) => some x
  | (_, _ :: _) => none

/-- The function `atoi`. -/
def atoi (s : List Char) : Option Int :=
  match s with
  | [] => some 0
  | c :: r =>
    if c = '-' then (atoiDigits r).map (fun (x : Nat) => -(Int.ofNat x))
    else if c = '+' then (atoiDigits r).map (fun (x : Nat) => Int.ofNat x)
    else (atoiDigits (c :: r)).map (fun (x : Nat) => Int.ofNat x)

/-- The function `cutspace`. -/
def cutspace (s : List Char) : List Char := s.dropWhile (· == ' ')

/-- The function `skip`: remove the literal `pre` from the front of `value`. -/
def skip (value pre : List Char) : Option (List Char) :=
  match pre with
  | [] => some value
  | p :: ps =>
    if p = ' ' then
      match value with
      | v :: vs => if v ≠ ' ' then none else skip (cutspace (v :: vs)) (cutspace ps)
      | [] => skip [] (cutspace ps)
    else
      match value with
      | v :: vs => if v = p then skip vs ps else none
      | [] => none
termination_by pre.length
decreasing_by
  all_goals simp_wf
  all_goals exact Nat.lt_succ_of_le (List.dropWhile_sublist _).length_le

/-- The test `commaOrPeriod`. -/
def commaOrPeriod (c : Char) : Bool := c == '.' || c == ','

/-- The function `parseNanoseconds`: `value` starts with the separator and
`nbytes` is the length of separator and digits. -/
def parseNanoseconds (value : List Char) (nbytes : Nat) : Option Int :=
  match value with
  | [] => none
  | c :: _ =>
    if !commaOrPeriod c then none
    else
      let value := if nbytes > 10 then value.take 10 else value
      let nbytes := if nbytes > 10 then 10 else nbytes
      match atoi ((value.take nbytes).drop 1) with
      | none => none
      | some ns => if ns < 0 then none else some (ns * 10 ^ (10 - nbytes))

/-- The fields `parse` collects; `zoneOffset` is `-1` until a zone offset is
read, `zUTC` records a literal `Z`. -/
structure ParseState where
  year : Int := 0
  month : Int := -1
  day : Int := -1
  hour : Int := 0
  min : Int := 0
  sec : Int := 0
  nsec : Int := 0
  zoneOffset : Int := -1
  zUTC : Bool := false
  deriving DecidableEq, Repr

/-- Reading a zone offset written `±hh:mm`. -/
def parseColonTZ (value : List Char) : Option (Int × List Char) :=
  match value with
  | sign :: h1 :: h2 :: c :: m1 :: m2 :: rest =>
    if c ≠ ':' then none
    else
      match getnum [h1, h2] true, getnum [m1, m2] true with
      | some (hr, _), some (mm, _) =>
        if hr > 24 ∨ mm > 60 then none
        else
          let off : Int := ((hr * 60 + mm) * 60 : Nat)
          if sign = '+' then some (off, rest)
          else if sign = '-' then some (-off, rest)
          else none
      | _, _ => none
  | _ => none

/-- The special case after the seconds in `parse`: a fractional second in the
value where the layout has none is read as the nanoseconds. -/
def fractionAfterSeconds (next : Option Std) (st : ParseState) (rest : List Char) :
    Option (ParseState × List Char) :=
  match rest with
  | c :: d :: _ =>
    if commaOrPeriod c && isDigitChar d then
      match next with
      | some (.stdFracSecond0 _) => some (st, rest)
      | _ =>
        let n := 2 + ((rest.drop 2).takeWhile isDigitChar).length
        (parseNanoseconds rest n).map (fun ns => ({ st with nsec := ns }, rest.drop n))
    else some (st, rest)
  | _ => some (st, rest)

/-- One case of the `switch` of `parse`: read the element `std` from the front
of `value`. `next` is the element that follows in the layout, if any. -/
def parseStd (std : Std) (next : Option Std) (st : ParseState) (value : List Char) :
    Option (ParseState × List Char) :=
  match std with
  | .stdLongYear =>
    match value with
    | c1 :: c2 :: c3 :: c4 :: rest =>
      if !isDigitChar c1 then none
      else (atoi [c1, c2, c3, c4]).map (fun y => ({ st with year := y }, rest))
    | _ => none
  | .stdZeroMonth =>
    match getnum value true with
    | some (m, rest) => if m = 0 ∨ 12 < m then none else some ({ st with month := m }, rest)
    | none => none
  | .stdZeroDay =>
    match getnum value true with
    | some (d, rest) => some ({ st with day := d }, rest)
    | none => none
  | .stdHour =>
    match getnum value false with
    | some (h, rest) => if 24 ≤ h then none else some ({ st with hour := h }, rest)
    | none => none
  | .stdZeroMinute =>
    match getnum value true with
    | some (m, rest) => if 60 ≤ m then none else some ({ st with min := m }, rest)
    | none => none
  | .stdZeroSecond =>
    match getnum value true with
    | some (s, rest) =>
      if 60 ≤ s then none else fractionAfterSeconds next { st with sec := s } rest
    | none => none
  | .stdFracSecond0 digits =>
    let ndigit := 1 + digits
    if value.length < ndigit then none
    else (parseNanoseconds value ndigit).map (fun ns => ({ st with nsec := ns }, value.drop ndigit))
  | .stdNumColonTZ =>
    (parseColonTZ value).map (fun r => ({ st with zoneOffset := r.1 }, r.2))
  | .stdISO8601ColonTZ =>
    match value with
    | 'Z' :: rest => some ({ st with zUTC := true }, rest)
    | _ => (parseColonTZ value).map (fun r => ({ st with zoneOffset := r.1 }, r.2))

/-- The loop of `parse` over the chunks of the layout, then the literal text
at the end of the layout; nothing may be left of the value. -/
def parseChunks : List (List Char × Std) → List Char → ParseState → List Char →
    Option ParseState
  | [], tail, st, value =>
    match skip value tail with
    | some [] => some st
    | _ => none
  | (pre, std) :: chunks, tail, st, value =>
    match skip value pre with
    | none => none
    | some value =>
      match parseStd std (chunks.head?.map (·.2)) st value with
      | none => none
      | some (st, value) => parseChunks chunks tail st value

/-- The end of `parse`: the day is validated against the month, and the time
is built with `Date`; a zone offset read from the value is subtracted, and the
location is the local zone when that has the same offset at that instant. -/
def finishParse (localOffset : Int → Int) (st : ParseState) : Option Time :=
  let month := if st.month < 0 then 1 else st.month
  let day := if st.day < 0 then 1 else st.day
  if day < 1 ∨ day > daysIn month.toNat st.year then none
  else
    let (unix, nsec) := dateUnix st.year month day st.hour st.min st.sec st.nsec
    if st.zUTC then some ⟨unix, nsec.toNat, .utc⟩
    else if st.zoneOffset ≠ -1 then
      let unix := unix - st.zoneOffset
      if localOffset unix = st.zoneOffset then some ⟨unix, nsec.toNat, .localZone⟩
      else some ⟨unix, nsec.toNat, .fixed st.zoneOffset⟩
    else some ⟨unix, nsec.toNat, .utc⟩

/-- The function `time.Parse`, for layouts made of the elements of `Std`. -/
def timeParse (localOffset : Int → Int) (layout value : String) : Except String Time :=
  let (chunks, tail) := chunksOf layout
  match parseChunks chunks tail {} value.data with
  | none => .error ("parsing time " ++ value ++ " as " ++ layout)
  | some st =>
    match finishParse localOffset st with
    | none => .error ("parsing time " ++ value ++ ": day out of range")
    | some t => .ok t

/-! ### Formatting -/

/-- The character of a decimal digit. -/
def digitChar (d : Nat) : Char := Char.ofNat (48 + d)

/-- The decimal digits of `u`, most significant first. -/
def decimalDigits (u : Nat) : List Char :=
  if u < 10 then [digitChar u] else decimalDigits (u / 10) ++ [digitChar (u % 10)]
termination_by u
decreasing_by omega

/-- The function `appendInt`: a sign for a negative number, then the digits
padded with zeros to the width. -/
def appendInt (x : Int) (width : Nat) : List Char :=
  let ds := decimalDigits x.natAbs
  (if x < 0 then ['-'] else []) ++ List.replicate (width - ds.length) '0' ++ ds

/-- The function `appendNano` for an element `.000`: the separator and the
first `digits` of the nine digits of the nanoseconds. -/
def appendNano (nanosec : Nat) (digits : Nat) : List Char :=
  '.' :: (appendInt nanosec 9).take digits

/-- The zone offset as `Format` writes it for `-07:00` and `Z07:00`. -/
def appendZone (offset : Int) (iso : Bool) : List Char :=
  if offset = 0 ∧ iso = true then ['Z']
  else
    let zone := Int.tdiv offset 60
    let sign := if zone < 0 then '-' else '+'
    let zone := if zone < 0 then -zone else zone
    sign :: (appendInt (Int.tdiv zone 60) 2 ++ ':' :: appendInt (Int.tmod zone 60) 2)

/-- The broken-down time `Format` prints: year, month, day, hour, minute,
second of the instant in its location. -/
def civil (localOffset : Int → Int) (t : Time) : Int × Nat × Nat × Nat × Nat × Nat :=
  let abs := toUint64 (t.sec + t.loc.offsetAt localOffset t.sec + unixToAbsolute)
  let (year, yday) := absYear (abs / 86400)
  let (month, day) := absMonthDay year yday
  let s := abs % 86400
  (year, month, day, s / 3600, s % 3600 / 60, s % 60)

/-- What `Format` appends for one element. -/
def formatStd (localOffset : Int → Int) (t : Time) (std : Std) : List Char :=
  let (year, month, day, hour, min, sec) := civil localOffset t
  match std with
  | .stdLongYear => appendInt year 4
  | .stdZeroMonth => appendInt month 2
  | .stdZeroDay => appendInt day 2
  | .stdHour => appendInt hour 2
  | .stdZeroMinute => appendInt min 2
  | .stdZeroSecond => appendInt sec 2
  | .stdFracSecond0 digits => appendNano t.nsec digits
  | .stdNumColonTZ => appendZone (t.loc.offsetAt localOffset t.sec) false
  | .stdISO8601ColonTZ => appendZone (t.loc.offsetAt localOffset t.sec) true

/-- The method `Format`, for layouts made of the elements of `Std`. -/
def Time.Format (localOffset : Int → Int) (t : Time) (layout : String) : String :=
  let (chunks, tail) := chunksOf layout
  String.mk ((chunks.map (fun c => c.1 ++ formatStd localOffset t c.2)).flatten ++ tail)

/-- The constant `time.RFC3339`. -/
def RFC3339 : String := "2006-01-02T15:04:05Z07:00"

/-! ## Definitions used to state the theorems -/

/-- An instance of `sort.Slice`: straight insertion, as the library does for
short slices; elements with equal `Start` keep their order. -/
def insertionSortSlice (es : List Entity) : List Entity :=
  List.insertionSort startLE es

/-- A storage and collaborators for concrete runs: the storage is a list of
key-value pairs, the remote calls all succeed. -/
def sampleAppEnv : AppEnv (List (String × String)) Unit where
  storageSet := fun st k v => (k, v) :: st
  storageGet := fun st k => .ok ((st.lookup k).getD "")
  makeXRPCC := fun _ st => (.ok (), st)
  doFollow := fun _ target st => (.ok ("followed " ++ target), st)
  doFollows := fun _ _ st => (.ok "", st)
  showError := fun e => e

/-- The cursor never has to move backwards: every span starts at or after the
position the cursor has reached. -/
def CursorOrdered : Int → List Entity → Prop
  | _, [] => True
  | off, e :: es => off ≤ e.Index.Start ∧ CursorOrdered e.Index.End es

/-- Every span satisfies `0 ≤ start ≤ end ≤ n`. -/
def InRange (n : Nat) (es : List Entity) : Prop :=
  ∀ e ∈ es, 0 ≤ e.Index.Start ∧ e.Index.Start ≤ e.Index.End ∧ e.Index.End ≤ (n : Int)

/-- A configuration used in the concrete runs below. -/
def sampleConfig : Config :=
  ⟨"https://bsky.social", "alice.test", "hunter2", "/home/alice/.config/bsky", "dev-"⟩

/-- A service that rejects every refresh and accepts every login, and a file
system on which every write succeeds. -/
def loginOnlyEnv : SessionEnv where
  filepathJoin := fun d f => d ++ "/" ++ f
  refreshSession := fun _ => .error "ExpiredToken"
  createSession := fun _ _ _ => .ok ⟨"access-2", "did:plc:alice", "refresh-2"⟩
  writeFile := fun _ _ => none

/-- The same service with a file system on which every write fails. -/
def readOnlyEnv : SessionEnv :=
  { loginOnlyEnv with writeFile := fun _ _ => some "read-only file system" }

/-- The day of the year of a date. -/
def yearDay (leap : Bool) (mo d : Nat) : Nat :=
  daysBefore (mo - 1) + (if leap && decide (mo ≥ 3) then 1 else 0) + (d - 1)

/-- The number of days of a month. -/
def monthLength (leap : Bool) (mo : Nat) : Nat :=
  if mo = 2 ∧ leap = true then 29 else daysBefore mo - daysBefore (mo - 1)

/-- A date and time of day that exist in the calendar. -/
def ValidCivil (y : Int) (mo d h mi s : Nat) : Prop :=
  1 ≤ mo ∧ mo ≤ 12 ∧ 1 ≤ d ∧ d ≤ daysIn mo y ∧ h < 24 ∧ mi < 60 ∧ s < 60

/-- The Unix time of a date and time of day in UTC. -/
def civilUnix (y : Int) (mo d h mi s : Nat) : Int :=
  ((((daysSinceEpoch y + yearDay (isLeap y) mo d) * 86400 + (h * 3600 + mi * 60 + s) : Nat) : Int))
    - unixToAbsolute

/-- The `k` low decimal digits of `n`, most significant first. -/
def fixedDigits : Nat → Nat → List Char
  | 0, _ => []
  | k + 1, n => digitChar (n / 10 ^ k % 10) :: fixedDigits k n

/-- The chunks of the layout `2006-01-02T15:04:05`, with which every layout
of `formats` and `RFC3339` starts. -/
def dateTimeChunks : List (List Char × Std) :=
  [([], .stdLongYear), (['-'], .stdZeroMonth), (['-'], .stdZeroDay), (['T'], .stdHour),
   ([':'], .stdZeroMinute), ([':'], .stdZeroSecond)]

/-- The text `YYYY-MM-DDTHH:MM:SS` of a date and time of day, followed by `rest`. -/
def stampWith (y mo d h mi s : Nat) (rest : List Char) : List Char :=
  fixedDigits 4 y ++ '-' :: (fixedDigits 2 mo ++ '-' :: (fixedDigits 2 d ++ 'T' ::
    (fixedDigits 2 h ++ ':' :: (fixedDigits 2 mi ++ ':' :: (fixedDigits 2 s ++ rest)))))

/-- The fields read from `YYYY-MM-DDTHH:MM:SS`. -/
def stampState (y mo d h mi s : Nat) : ParseState :=
  { year := y, month := mo, day := d, hour := h, min := mi, sec := s }

/-- The text after the seconds that `Format` writes for the zone of a time in
UTC with the element `-07:00`. -/
def utcZoneChars : List Char := ['+', '0', '0', ':', '0', '0']

/-- The unit, in nanoseconds, of the precision a layout of `formats` carries:
milliseconds for `.000`, microseconds for `.000000`, seconds otherwise. -/
def layoutUnit (layout : String) : Nat :=
  if layout = "2006-01-02T15:04:05.000Z" then 1000000
  else if layout = "2006-01-02T15:04:05.000000Z" then 1000
  else 1000000000

/-! ## Lemmas on the rendering loop -/

theorem sliceRunes_ok (rs : List Char) (a b : Nat) (hab : a ≤ b) (hb : b ≤ rs.length) :
    sliceRunes rs (a : Int) (b : Int) = .ok (String.mk ((rs.drop a).take (b - a))) := by
  have h : (0 : Int) ≤ (a : Int) ∧ (a : Int) ≤ (b : Int) ∧ (b : Int) ≤ (rs.length : Int) := by
    omega
  simp [sliceRunes, h]

theorem sliceRunes_error (rs : List Char) (lo hi : Int)
    (h : ¬ (0 ≤ lo ∧ lo ≤ hi ∧ hi ≤ (rs.length : Int))) :
    sliceRunes rs lo hi = .error (.sliceBounds lo hi rs.length) := by
  simp only [sliceRunes, if_neg h]

theorem drop_split (rs : List Char) (a b : Nat) (hab : a ≤ b) :
    rs.drop a = (rs.drop a).take (b - a) ++ rs.drop b := by
  have h : rs.drop b = (rs.drop a).drop (b - a) := by
    rw [List.drop_drop]
    congr 1
    omega
  rw [h, List.take_append_drop]

theorem piecesText_nil : piecesText [] = "" := rfl

theorem piecesText_data_cons (p : Piece) (ps : List Piece) :
    (piecesText (p :: ps)).data = p.text.data ++ (piecesText ps).data := by
  simp [piecesText, String.data_join]

theorem pieceOffset_zero (ps : List Piece) : pieceOffset ps 0 = 0 := by
  simp [pieceOffset]

theorem pieceOffset_succ (p : Piece) (ps : List Piece) (k : Nat) :
    pieceOffset (p :: ps) (k + 1) = p.text.length + pieceOffset ps k := by
  simp [pieceOffset]

theorem cursorOrdered_of_chain (es : List Entity) (e : Entity) (off : Int)
    (hoff : off ≤ e.Index.Start)
    (hchain : List.Chain' (fun a b : Entity => a.Index.End ≤ b.Index.Start) (e :: es)) :
    CursorOrdered off (e :: es) := by
  induction es generalizing off e with
  | nil => exact ⟨hoff, trivial⟩
  | cons e2 es2 ih =>
    rw [List.chain'_cons] at hchain
    exact ⟨hoff, ih e2 _ hchain.1 hchain.2⟩

theorem cursorOrdered_zero (n : Nat) (es : List Entity) (hr : InRange n es)
    (hchain : List.Chain' (fun a b : Entity => a.Index.End ≤ b.Index.Start) es) :
    CursorOrdered 0 es := by
  cases es with
  | nil => trivial
  | cons e es => exact cursorOrdered_of_chain es e 0 (hr e (List.mem_cons_self _ _)).1 hchain

/-- The loop invariant: started with the cursor at `off`, on in-range spans
that never send the cursor backwards, the loop completes, prints exactly the
runes from `off` on, and every boundary between two pieces is a span edge. -/
theorem renderLoop_spec (rs : List Char) (es : List Entity) (off : Nat)
    (hoff : off ≤ rs.length) (hr : InRange rs.length es)
    (hc : CursorOrdered (off : Int) es) :
    ∃ ps, renderLoop rs es (off : Int) = .ok ps ∧
      (piecesText ps).data = rs.drop off ∧
      ∀ k, 0 < k → k < ps.length →
        ∃ e ∈ es, ((off + pieceOffset ps k : Nat) : Int) = e.Index.Start ∨
          ((off + pieceOffset ps k : Nat) : Int) = e.Index.End := by
  induction es generalizing off with
  | nil =>
    by_cases h : (off : Int) < (rs.length : Int)
    · refine ⟨[⟨.plain, String.mk ((rs.drop off).take (rs.length - off))⟩], ?_, ?_, ?_⟩
      · simp only [renderLoop, if_pos h, sliceRunes_ok rs off rs.length hoff le_rfl]
        rfl
      · rw [piecesText_data_cons, piecesText_nil]
        simp
      · intro k hk hk2
        simp at hk2
        omega
    · refine ⟨[], ?_, ?_, ?_⟩
      · simp only [renderLoop, if_neg h]
      · have : rs.length ≤ off := by omega
        simp [piecesText_nil, List.drop_eq_nil_iff.mpr this]
      · intro k hk hk2
        simp at hk2
  | cons e es ih =>
    obtain ⟨h0, hse, hen⟩ := hr e (List.mem_cons_self _ _)
    obtain ⟨hos, hc2⟩ := hc
    obtain ⟨s, hs⟩ := Int.eq_ofNat_of_zero_le h0
    obtain ⟨t, ht⟩ := Int.eq_ofNat_of_zero_le (le_trans h0 hse)
    have hst : s ≤ t := by omega
    have htn : t ≤ rs.length := by omega
    have hofs : off ≤ s := by omega
    have hcs : clampStart e = (s : Int) := by
      simp only [clampStart]
      rw [if_neg (by omega)]
      exact hs
    have hce : clampEnd rs e = (t : Int) := by
      simp only [clampEnd]
      rw [if_neg (by omega)]
      exact ht
    rw [ht] at hc2
    obtain ⟨rest, hrest, hdata, hbound⟩ :=
      ih t htn (fun x hx => hr x (List.mem_cons_of_mem _ hx)) hc2
    refine ⟨⟨.plain, String.mk ((rs.drop off).take (s - off))⟩ ::
      ⟨entityStyle e, String.mk ((rs.drop s).take (t - s))⟩ :: rest, ?_, ?_, ?_⟩
    · simp only [renderLoop, hcs, hce, sliceRunes_ok rs off s hofs (le_trans hst htn),
        sliceRunes_ok rs s t hst htn, hrest]
    · rw [piecesText_data_cons, piecesText_data_cons, hdata]
      simp only []
      rw [← drop_split rs s t hst, ← drop_split rs off s hofs]
    · intro k hk hk2
      have hl1 : ((rs.drop off).take (s - off)).length = s - off := by
        simp only [List.length_take, List.length_drop]
        omega
      have hl2 : ((rs.drop s).take (t - s)).length = t - s := by
        simp only [List.length_take, List.length_drop]
        omega
      match k, hk with
      | 1, _ =>
        refine ⟨e, List.mem_cons_self _ _, Or.inl ?_⟩
        rw [pieceOffset_succ, pieceOffset_zero, hs]
        simp only [String.length_mk, hl1]
        omega
      | 2, _ =>
        refine ⟨e, List.mem_cons_self _ _, Or.inr ?_⟩
        rw [pieceOffset_succ, pieceOffset_succ, pieceOffset_zero, ht]
        simp only [String.length_mk, hl1, hl2]
        omega
      | j + 3, _ =>
        have hj : j + 1 < rest.length := by
          simp only [List.length_cons] at hk2
          omega
        obtain ⟨x, hx, hxe⟩ := hbound (j + 1) (by omega) hj
        refine ⟨x, List.mem_cons_of_mem _ hx, ?_⟩
        have hoffs : off + pieceOffset (⟨.plain, String.mk ((rs.drop off).take (s - off))⟩ ::
            ⟨entityStyle e, String.mk ((rs.drop s).take (t - s))⟩ :: rest) (j + 3)
            = t + pieceOffset rest (j + 1) := by
          rw [show j + 3 = (j + 1) + 1 + 1 from rfl, pieceOffset_succ, pieceOffset_succ]
          simp only [String.length_mk, hl1, hl2]
          omega
        rw [hoffs]
        exact hxe

theorem isSortSlice_insertionSortSlice : IsSortSlice insertionSortSlice := by
  intro es
  refine ⟨List.perm_insertionSort startLE es, ?_⟩
  have h := List.sorted_insertionSort startLE es
  refine List.Pairwise.imp ?_ h
  intro a b hab hba
  exact absurd hba (not_lt.mpr hab)

theorem sortSlice_singleton (sortSlice : List Entity → List Entity) (h : IsSortSlice sortSlice)
    (e : Entity) : sortSlice [e] = [e] :=
  List.perm_singleton.mp (h [e]).1

theorem sortSlice_pair (sortSlice : List Entity → List Entity) (h : IsSortSlice sortSlice)
    (a b : Entity) (hab : a.Index.Start < b.Index.Start) : sortSlice [a, b] = [a, b] := by
  obtain ⟨hp, hs⟩ := h [a, b]
  have hlen := hp.length_eq
  have hne : a ≠ b := fun hE => by
    rw [hE] at hab
    exact lt_irrefl _ hab
  match hl : sortSlice [a, b], hlen with
  | [x, y], _ =>
    rw [hl] at hp hs
    have hx : x ∈ [a, b] := hp.subset (List.mem_cons_self _ _)
    have hy : y ∈ [a, b] := hp.subset (List.mem_cons_of_mem _ (List.mem_cons_self _ _))
    have ha : a ∈ [x, y] := hp.symm.subset (List.mem_cons_self _ _)
    have hb : b ∈ [x, y] := hp.symm.subset (List.mem_cons_of_mem _ (List.mem_cons_self _ _))
    have hxy : ¬ startLess y x := (List.pairwise_cons.mp hs).1 y (List.mem_cons_self _ _)
    simp only [List.mem_cons, List.mem_singleton, List.not_mem_nil, or_false] at hx hy ha hb
    rcases hx with rfl | rfl <;> rcases hy with rfl | rfl
    · rcases hb with hb | hb <;> exact absurd hb.symm hne
    · rfl
    · exact absurd hab hxy
    · rcases ha with ha | ha <;> exact absurd ha hne

/-! ## Claims on `PrintPost` -/

/-- C1 (as amended): for every text and every list of spans with
`0 ≤ start ≤ end ≤ len(text)` that do not overlap (in the order the loop
processes them, each span starts at or after the end of the one before), the
loop completes, the pieces it prints concatenate to exactly the text, and
every boundary between two pieces lies at the start or the end of a span. -/
theorem renderEntities_reproduces_text (sortSlice : List Entity → List Entity)
    (hsort : IsSortSlice sortSlice) (text : String) (es : List Entity)
    (hr : InRange text.length es)
    (hno : List.Chain' (fun a b : Entity => a.Index.End ≤ b.Index.Start) (sortSlice es)) :
    ∃ ps, renderEntities sortSlice text es = .ok ps ∧ piecesText ps = text ∧
      ∀ k, 0 < k → k < ps.length →
        ∃ e ∈ es, (pieceOffset ps k : Int) = e.Index.Start ∨
          (pieceOffset ps k : Int) = e.Index.End := by
  have hperm := (hsort es).1
  have hr2 : InRange text.data.length (sortSlice es) := fun e he => hr e (hperm.subset he)
  have hc := cursorOrdered_zero _ _ hr2 hno
  obtain ⟨ps, hps, hdata, hb⟩ :=
    renderLoop_spec text.data (sortSlice es) 0 (Nat.zero_le _) hr2 hc
  refine ⟨ps, hps, ?_, ?_⟩
  · apply String.ext
    rw [hdata]
    rfl
  · intro k hk hk2
    obtain ⟨e, he, hE⟩ := hb k hk hk2
    refine ⟨e, hperm.subset he, ?_⟩
    simpa using hE

/-- C1, witness: two disjoint spans over a text with multi-byte characters. -/
theorem renderEntities_reproduces_text_witness :
    ∃ ps, renderEntities insertionSortSlice "héllo wörld"
        [⟨⟨6, 11⟩, "link", ""⟩, ⟨⟨1, 2⟩, "mention", ""⟩] = .ok ps ∧
      piecesText ps = "héllo wörld" ∧
      ∀ k, 0 < k → k < ps.length →
        ∃ e ∈ [(⟨⟨6, 11⟩, "link", ""⟩ : Entity), ⟨⟨1, 2⟩, "mention", ""⟩],
          (pieceOffset ps k : Int) = e.Index.Start ∨ (pieceOffset ps k : Int) = e.Index.End :=
  renderEntities_reproduces_text insertionSortSlice isSortSlice_insertionSortSlice
    "héllo wörld" [⟨⟨6, 11⟩, "link", ""⟩, ⟨⟨1, 2⟩, "mention", ""⟩]
    (by simp [InRange, String.length])
    (by simp [insertionSortSlice, List.insertionSort, List.orderedInsert, startLE])

/-- C1, counterexample: the spans `{0,3}` and `{1,2}` over "hello" both satisfy
`0 ≤ start ≤ end ≤ 5`, yet with every sort the loop fails on `rs[3:1]` and so
prints no sequence of pieces that concatenates to the text. -/
theorem renderEntities_overlap_fails :
    InRange "hello".length [⟨⟨0, 3⟩, "link", ""⟩, ⟨⟨1, 2⟩, "link", ""⟩] ∧
    ∀ sortSlice, IsSortSlice sortSlice →
      renderEntities sortSlice "hello" [⟨⟨0, 3⟩, "link", ""⟩, ⟨⟨1, 2⟩, "link", ""⟩]
        = .error (.sliceBounds 3 1 5) := by
  refine ⟨by simp [InRange, String.length], ?_⟩
  intro sortSlice h
  unfold renderEntities
  rw [sortSlice_pair sortSlice h _ _ (by simp)]
  rfl

/-- C2: the loop clamps only a negative `start` (to 0) and an `end` beyond the
text (to its length). The span `{start 3, end 1}` over "hello" is left as it is
and the loop fails on `rs[3:1]`, with every sort; the span `{-3, 999}` is
clamped to `{0, 5}` and the whole text is printed in the span's style. -/
theorem renderEntities_end_before_start_panics :
    (∀ sortSlice, IsSortSlice sortSlice →
      renderEntities sortSlice "hello" [⟨⟨3, 1⟩, "mention", ""⟩]
        = .error (.sliceBounds 3 1 5)) ∧
    (∀ sortSlice, IsSortSlice sortSlice →
      renderEntities sortSlice "hello" [⟨⟨-3, 999⟩, "mention", ""⟩]
        = .ok [⟨.plain, ""⟩, ⟨.bold, "hello"⟩]) := by
  constructor
  · intro sortSlice h
    unfold renderEntities
    rw [sortSlice_singleton sortSlice h]
    rfl
  · intro sortSlice h
    unfold renderEntities
    rw [sortSlice_singleton sortSlice h]
    rfl

/-- C3: for a single span with `0 ≤ start ≤ end ≤ n` (offsets in code points)
the loop prints code points `[0, start)` unstyled, then `[start, end)` in the
style of the span (bold for "mention", underline otherwise), then, when it is
not empty, `[end, n)` unstyled. -/
theorem renderEntities_single_span (sortSlice : List Entity → List Entity)
    (hsort : IsSortSlice sortSlice) (text : String) (e : Entity) (s t : Nat)
    (hs : e.Index.Start = (s : Int)) (ht : e.Index.End = (t : Int))
    (hst : s ≤ t) (htn : t ≤ text.length) :
    renderEntities sortSlice text [e] = .ok
      ([⟨.plain, String.mk (text.data.take s)⟩,
        ⟨if e.Typ = "mention" then .bold else .underline,
          String.mk ((text.data.drop s).take (t - s))⟩] ++
        if t < text.length then [⟨.plain, String.mk (text.data.drop t)⟩] else []) := by
  have htn2 : t ≤ text.data.length := htn
  have hcs : clampStart e = (s : Int) := by
    simp only [clampStart, hs]
    rw [if_neg (by omega)]
  have hce : clampEnd text.data e = (t : Int) := by
    simp only [clampEnd, ht]
    rw [if_neg (by omega)]
  have h0 : sliceRunes text.data 0 (s : Int) = .ok (String.mk (text.data.take s)) := by
    have := sliceRunes_ok text.data 0 s (Nat.zero_le _) (le_trans hst htn2)
    simpa using this
  unfold renderEntities
  rw [sortSlice_singleton sortSlice hsort]
  simp only [renderLoop, hcs, hce, h0, sliceRunes_ok text.data s t hst htn2]
  by_cases hlt : t < text.length
  · have hlt2 : (t : Int) < (text.data.length : Int) := by
      have : t < text.data.length := hlt
      omega
    rw [if_pos hlt2, if_pos hlt, sliceRunes_ok text.data t text.data.length htn2 le_rfl]
    have htake : (text.data.drop t).take (text.data.length - t) = text.data.drop t := by
      apply List.take_of_length_le
      simp
    rw [htake]
    rfl
  · have hlt2 : ¬ (t : Int) < (text.data.length : Int) := by
      have : ¬ t < text.data.length := hlt
      omega
    rw [if_neg hlt2, if_neg hlt]
    rfl

/-- C3, witness: "hello @bob world" with the mention `{6, 10}`, and a text with
multi-byte characters (11 code points, 13 bytes) with the link `{6, 11}`. -/
theorem renderEntities_single_span_witness :
    renderEntities insertionSortSlice "hello @bob world" [⟨⟨6, 10⟩, "mention", ""⟩]
      = .ok [⟨.plain, "hello "⟩, ⟨.bold, "@bob"⟩, ⟨.plain, " world"⟩] ∧
    "héllo wörld".utf8ByteSize = 13 ∧
    renderEntities insertionSortSlice "héllo wörld" [⟨⟨6, 11⟩, "link", ""⟩]
      = .ok [⟨.plain, "héllo "⟩, ⟨.underline, "wörld"⟩] := by
  refine ⟨?_, by decide, ?_⟩
  · rw [renderEntities_single_span insertionSortSlice isSortSlice_insertionSortSlice
      "hello @bob world" ⟨⟨6, 10⟩, "mention", ""⟩ 6 10 rfl rfl (by decide) (by decide)]
    rfl
  · rw [renderEntities_single_span insertionSortSlice isSortSlice_insertionSortSlice
      "héllo wörld" ⟨⟨6, 11⟩, "link", ""⟩ 6 11 rfl rfl (by decide) (by decide)]
    rfl

theorem saveAuth_failed (env : SessionEnv) (cfg : Config) (files : Files) (xrpcc : Client)
    (calls : List Call) (e : String)
    (h : env.writeFile (authPath env cfg) xrpcc.Auth = some e) :
    saveAuth env cfg files xrpcc calls =
      ⟨.error (.cannotWriteAuthFile e), files,
        calls ++ [.writeFile (authPath env cfg) xrpcc.Auth]⟩ := by
  simp [saveAuth, h]

theorem saveAuth_written (env : SessionEnv) (cfg : Config) (files : Files) (xrpcc : Client)
    (calls : List Call) (h : env.writeFile (authPath env cfg) xrpcc.Auth = none) :
    saveAuth env cfg files xrpcc calls =
      ⟨.ok xrpcc, files.write (authPath env cfg) xrpcc.Auth,
        calls ++ [.writeFile (authPath env cfg) xrpcc.Auth]⟩ := by
  simp [saveAuth, h]

theorem createSessionBranch_failed (env : SessionEnv) (cfg : Config) (files : Files)
    (xrpcc : Client) (calls : List Call) (e : String)
    (h : env.createSession xrpcc xrpcc.Auth.Handle cfg.Password = .error e) :
    createSessionBranch env cfg files xrpcc calls =
      ⟨.error (.cannotCreateSession e), files,
        calls ++ [.createSession xrpcc.Auth.Handle cfg.Password]⟩ := by
  simp [createSessionBranch, h]

theorem createSessionBranch_created (env : SessionEnv) (cfg : Config) (files : Files)
    (xrpcc : Client) (calls : List Call) (out : SessionOutput)
    (h : env.createSession xrpcc xrpcc.Auth.Handle cfg.Password = .ok out) :
    createSessionBranch env cfg files xrpcc calls =
      saveAuth env cfg files (xrpcc.setSession out)
        (calls ++ [.createSession xrpcc.Auth.Handle cfg.Password]) := by
  simp [createSessionBranch, h]

theorem makeXRPCC_not_stored (env : SessionEnv) (cfg : Config) (files : Files)
    (h : files (authPath env cfg) = none) :
    MakeXRPCC env cfg files =
      createSessionBranch env cfg files ⟨cfg.Host, ⟨"", "", cfg.Handle, ""⟩⟩
        [.readAuth (authPath env cfg)] := by
  simp [MakeXRPCC, h]

theorem makeXRPCC_refresh_failed (env : SessionEnv) (cfg : Config) (files : Files)
    (auth : AuthInfo) (e : String) (h : files (authPath env cfg) = some auth)
    (hr : env.refreshSession ⟨cfg.Host, { auth with AccessJwt := auth.RefreshJwt }⟩ = .error e) :
    MakeXRPCC env cfg files =
      createSessionBranch env cfg files ⟨cfg.Host, { auth with AccessJwt := auth.RefreshJwt }⟩
        [.readAuth (authPath env cfg), .refreshSession auth.RefreshJwt] := by
  simp [MakeXRPCC, h, hr]

theorem makeXRPCC_refreshed (env : SessionEnv) (cfg : Config) (files : Files)
    (auth : AuthInfo) (out : SessionOutput) (h : files (authPath env cfg) = some auth)
    (hr : env.refreshSession ⟨cfg.Host, { auth with AccessJwt := auth.RefreshJwt }⟩ = .ok out) :
    MakeXRPCC env cfg files =
      saveAuth env cfg files
        (Client.setSession ⟨cfg.Host, { auth with AccessJwt := auth.RefreshJwt }⟩ out)
        [.readAuth (authPath env cfg), .refreshSession auth.RefreshJwt] := by
  simp [MakeXRPCC, h, hr]

/-- Every run ends in `saveAuth` (a credential was obtained), or in the error
"cannot create session" without any write. -/
theorem makeXRPCC_cases (env : SessionEnv) (cfg : Config) (files : Files) :
    (∃ xrpcc calls, calls.filter Call.isWrite = [] ∧
      MakeXRPCC env cfg files = saveAuth env cfg files xrpcc calls) ∨
    (∃ e calls, calls.filter Call.isWrite = [] ∧
      MakeXRPCC env cfg files = ⟨.error (.cannotCreateSession e), files, calls⟩) := by
  have hbranch : ∀ (xrpcc : Client) (calls : List Call), calls.filter Call.isWrite = [] →
      (∃ x cs, cs.filter Call.isWrite = [] ∧
        createSessionBranch env cfg files xrpcc calls = saveAuth env cfg files x cs) ∨
      (∃ e cs, cs.filter Call.isWrite = [] ∧
        createSessionBranch env cfg files xrpcc calls
          = ⟨.error (.cannotCreateSession e), files, cs⟩) := by
    intro xrpcc calls h0
    rcases hc : env.createSession xrpcc xrpcc.Auth.Handle cfg.Password with e | out
    · right
      refine ⟨e, _, ?_, createSessionBranch_failed env cfg files xrpcc calls e hc⟩
      simp [List.filter_append, h0, Call.isWrite]
    · left
      refine ⟨_, _, ?_, createSessionBranch_created env cfg files xrpcc calls out hc⟩
      simp [List.filter_append, h0, Call.isWrite]
  rcases hf : files (authPath env cfg) with _ | auth
  · rw [makeXRPCC_not_stored env cfg files hf]
    exact hbranch _ _ (by simp [Call.isWrite])
  · rcases hr : env.refreshSession ⟨cfg.Host, { auth with AccessJwt := auth.RefreshJwt }⟩
      with e | out
    · rw [makeXRPCC_refresh_failed env cfg files auth e hf hr]
      exact hbranch _ _ (by simp [Call.isWrite])
    · left
      refine ⟨_, _, ?_, makeXRPCC_refreshed env cfg files auth out hf hr⟩
      simp [Call.isWrite]

/-! ## Claims on `MakeXRPCC` -/

/-- C8 (as amended): when the credential has been obtained (a write of the
store is attempted) and the write fails, `MakeXRPCC` returns no client: the
result is the error "cannot write auth file", which is not the error
"cannot create session". -/
theorem makeXRPCC_write_failure_returns_error (env : SessionEnv) (cfg : Config)
    (files : Files) (hfail : ∀ path a, env.writeFile path a ≠ none)
    (hobtained : (MakeXRPCC env cfg files).calls.filter Call.isWrite ≠ []) :
    (∃ cause, (MakeXRPCC env cfg files).result = .error (.cannotWriteAuthFile cause)) ∧
    (∀ client, (MakeXRPCC env cfg files).result ≠ .ok client) ∧
    (∀ cause, (MakeXRPCC env cfg files).result ≠ .error (.cannotCreateSession cause)) := by
  rcases makeXRPCC_cases env cfg files with ⟨xrpcc, calls, _, h⟩ | ⟨e, calls, h0, h⟩
  · rcases hw : env.writeFile (authPath env cfg) xrpcc.Auth with _ | c
    · exact absurd hw (hfail _ _)
    · rw [h, saveAuth_failed env cfg files xrpcc calls c hw]
      refine ⟨⟨c, rfl⟩, ?_, ?_⟩
      · intro client hc
        cases hc
      · intro cause hc
        cases hc
  · rw [h] at hobtained
    exact absurd h0 hobtained

/-- C8, witness: no stored credential, the login succeeds, the write fails. -/
theorem makeXRPCC_write_failure_returns_error_witness :
    (MakeXRPCC readOnlyEnv sampleConfig (fun _ => none)).calls.filter Call.isWrite ≠ [] ∧
    ∀ client, (MakeXRPCC readOnlyEnv sampleConfig (fun _ => none)).result ≠ .ok client :=
  ⟨by decide, (makeXRPCC_write_failure_returns_error readOnlyEnv sampleConfig (fun _ => none)
    (fun _ _ h => by cases h) (by decide)).2.1⟩

/-- C8, counterexample: the login answers with a credential and the write of
the auth file fails; the caller receives the error and no client. -/
theorem makeXRPCC_write_failure_drops_client :
    (MakeXRPCC readOnlyEnv sampleConfig (fun _ => none)).calls =
      [.readAuth (authPath readOnlyEnv sampleConfig),
        .createSession "alice.test" "hunter2",
        .writeFile (authPath readOnlyEnv sampleConfig)
          ⟨"access-2", "refresh-2", "alice.test", "did:plc:alice"⟩] ∧
    (MakeXRPCC readOnlyEnv sampleConfig (fun _ => none)).result =
      .error (.cannotWriteAuthFile "read-only file system") :=
  ⟨by rfl, by rfl⟩

/-- C9: in every run `MakeXRPCC` writes the store at most once, removes no
entry and touches no entry other than the auth file of the configured handle;
and when no credential is stored and the login succeeds, it makes exactly one
"create session" call, no "refresh session" call and exactly one write. -/
theorem makeXRPCC_store_effects (env : SessionEnv) (cfg : Config) (files : Files) :
    ((MakeXRPCC env cfg files).calls.filter Call.isWrite).length ≤ 1 ∧
    (∀ q, files q ≠ none → (MakeXRPCC env cfg files).files q ≠ none) ∧
    (∀ q, q ≠ authPath env cfg → (MakeXRPCC env cfg files).files q = files q) ∧
    (files (authPath env cfg) = none →
      (∃ out, env.createSession ⟨cfg.Host, ⟨"", "", cfg.Handle, ""⟩⟩ cfg.Handle cfg.Password
        = .ok out) →
      ((MakeXRPCC env cfg files).calls.filter Call.isCreate).length = 1 ∧
      ((MakeXRPCC env cfg files).calls.filter Call.isRefresh).length = 0 ∧
      ((MakeXRPCC env cfg files).calls.filter Call.isWrite).length = 1) := by
  have hsave : ∀ (xrpcc : Client) (calls : List Call),
      (saveAuth env cfg files xrpcc calls).calls
        = calls ++ [.writeFile (authPath env cfg) xrpcc.Auth] ∧
      (∀ q, files q ≠ none → (saveAuth env cfg files xrpcc calls).files q ≠ none) ∧
      (∀ q, q ≠ authPath env cfg → (saveAuth env cfg files xrpcc calls).files q = files q) := by
    intro xrpcc calls
    rcases hw : env.writeFile (authPath env cfg) xrpcc.Auth with _ | c
    · rw [saveAuth_written env cfg files xrpcc calls hw]
      refine ⟨rfl, ?_, ?_⟩
      · intro q hq
        simp only [Files.write]
        split_ifs
        · simp
        · exact hq
      · intro q hq
        simp only [Files.write, if_neg hq]
    · rw [saveAuth_failed env cfg files xrpcc calls c hw]
      exact ⟨rfl, fun _ h => h, fun _ _ => rfl⟩
  refine ⟨?_, ?_, ?_, ?_⟩
  · rcases makeXRPCC_cases env cfg files with ⟨xrpcc, calls, h0, h⟩ | ⟨e, calls, h0, h⟩
    · rw [h, (hsave xrpcc calls).1]
      simp [List.filter_append, h0, Call.isWrite]
    · rw [h]
      simp [h0]
  · rcases makeXRPCC_cases env cfg files with ⟨xrpcc, calls, h0, h⟩ | ⟨e, calls, h0, h⟩
    · rw [h]
      exact (hsave xrpcc calls).2.1
    · rw [h]
      exact fun _ hq => hq
  · rcases makeXRPCC_cases env cfg files with ⟨xrpcc, calls, h0, h⟩ | ⟨e, calls, h0, h⟩
    · rw [h]
      exact (hsave xrpcc calls).2.2
    · rw [h]
      exact fun _ _ => rfl
  · intro hnone hcreate
    obtain ⟨out, hout⟩ := hcreate
    rw [makeXRPCC_not_stored env cfg files hnone,
      createSessionBranch_created env cfg files _ _ out hout, (hsave _ _).1]
    simp [List.filter_append, Call.isWrite, Call.isCreate, Call.isRefresh]

/-- C9, a concrete run: empty store, valid password. -/
theorem makeXRPCC_store_effects_witness :
    ((MakeXRPCC loginOnlyEnv sampleConfig (fun _ => none)).calls.filter Call.isCreate).length = 1 ∧
    ((MakeXRPCC loginOnlyEnv sampleConfig (fun _ => none)).calls.filter Call.isRefresh).length = 0 ∧
    ((MakeXRPCC loginOnlyEnv sampleConfig (fun _ => none)).calls.filter Call.isWrite).length = 1 :=
  (makeXRPCC_store_effects loginOnlyEnv sampleConfig (fun _ => none)).2.2.2 rfl ⟨_, rfl⟩

/-! ## Claims on `Timep` -/

theorem timepLoop_spec {T E : Type} (parse : String → String → Except E T) (toLocal : T → T)
    (s : String) (fs : List String) :
    ((∀ f ∈ fs, ∃ e, parse f s = .error e) →
      timepLoop parse toLocal s fs = .error (.explicit s)) ∧
    (∀ t, timepLoop parse toLocal s fs = .ok t ↔
      ∃ pre f post u, fs = pre ++ f :: post ∧ (∀ g ∈ pre, ∃ e, parse g s = .error e) ∧
        parse f s = .ok u ∧ t = toLocal u) := by
  induction fs with
  | nil =>
    refine ⟨fun _ => rfl, fun t => ⟨fun h => ?_, fun h => ?_⟩⟩
    · simp [timepLoop] at h
    · obtain ⟨pre, f, post, u, h, _⟩ := h
      simp at h
  | cons f fs ih =>
    obtain ⟨ih1, ih2⟩ := ih
    rcases hp : parse f s with e | u
    · have hstep : timepLoop parse toLocal s (f :: fs) = timepLoop parse toLocal s fs := by
        simp [timepLoop, hp]
      rw [hstep]
      refine ⟨fun h => ih1 (fun g hg => h g (List.mem_cons_of_mem _ hg)), fun t => ?_⟩
      rw [ih2 t]
      constructor
      · rintro ⟨pre, g, post, u, h1, h2, h3, h4⟩
        refine ⟨f :: pre, g, post, u, by simp [h1], ?_, h3, h4⟩
        intro x hx
        rcases List.mem_cons.mp hx with rfl | hx
        · exact ⟨e, hp⟩
        · exact h2 x hx
      · rintro ⟨pre, g, post, u, h1, h2, h3, h4⟩
        cases pre with
        | nil =>
          simp only [List.nil_append, List.cons.injEq] at h1
          obtain ⟨rfl, _⟩ := h1
          rw [hp] at h3
          cases h3
        | cons x pre =>
          simp only [List.cons_append, List.cons.injEq] at h1
          obtain ⟨rfl, h1⟩ := h1
          exact ⟨pre, g, post, u, h1, fun y hy => h2 y (List.mem_cons_of_mem _ hy), h3, h4⟩
    · have hstep : timepLoop parse toLocal s (f :: fs) = .ok (toLocal u) := by
        simp [timepLoop, hp]
      rw [hstep]
      refine ⟨fun h => ?_, fun t => ⟨fun h => ?_, ?_⟩⟩
      · obtain ⟨e, he⟩ := h f (List.mem_cons_self _ _)
        rw [hp] at he
        cases he
      · cases h
        exact ⟨[], f, fs, u, rfl, fun _ hg => absurd hg (List.not_mem_nil _), hp, rfl⟩
      · rintro ⟨pre, g, post, v, h1, h2, h3, h4⟩
        cases pre with
        | nil =>
          simp only [List.nil_append, List.cons.injEq] at h1
          obtain ⟨rfl, _⟩ := h1
          rw [hp] at h3
          cases h3
          rw [h4]
        | cons x pre =>
          simp only [List.cons_append, List.cons.injEq] at h1
          obtain ⟨rfl, _⟩ := h1
          obtain ⟨e, he⟩ := h2 _ (List.mem_cons_self _ _)
          rw [hp] at he
          cases he

theorem timepLoop_total {T E : Type} (parse : String → String → Except E T) (toLocal : T → T)
    (s : String) (fs : List String) :
    (∃ t, timepLoop parse toLocal s fs = .ok t) ∨ (∀ f ∈ fs, ∃ e, parse f s = .error e) := by
  induction fs with
  | nil => exact Or.inr (fun _ h => absurd h (List.not_mem_nil _))
  | cons f fs ih =>
    rcases hp : parse f s with e | u
    · rcases ih with ⟨t, ht⟩ | h
      · left
        exact ⟨t, by simp [timepLoop, hp, ht]⟩
      · right
        intro g hg
        rcases List.mem_cons.mp hg with rfl | hg
        · exact ⟨e, hp⟩
        · exact h g hg
    · left
      exact ⟨toLocal u, by simp [timepLoop, hp]⟩

/-- C6: whatever `time.Parse` does, `Timep` panics with its input when none of
the five layouts parses the string (it returns no time then); it returns a time
exactly when some layout parses the string, and the time is the one parsed by
the first such layout in the order of `formats` (converted with `Local()`). -/
theorem timep_first_layout_or_panic {T E : Type} (parse : String → String → Except E T)
    (toLocal : T → T) (s : String) :
    formats.length = 5 ∧
    ((∀ f ∈ formats, ∃ e, parse f s = .error e) →
      Timep parse toLocal s = .error (.explicit s)) ∧
    ((∃ t, Timep parse toLocal s = .ok t) ↔ ∃ f ∈ formats, ∃ u, parse f s = .ok u) ∧
    (∀ t, Timep parse toLocal s = .ok t ↔
      ∃ pre f post u, formats = pre ++ f :: post ∧ (∀ g ∈ pre, ∃ e, parse g s = .error e) ∧
        parse f s = .ok u ∧ t = toLocal u) := by
  obtain ⟨h1, h2⟩ := timepLoop_spec parse toLocal s formats
  refine ⟨rfl, h1, ?_, h2⟩
  constructor
  · rintro ⟨t, ht⟩
    obtain ⟨pre, f, post, u, hf, _, hu, _⟩ := (h2 t).mp ht
    exact ⟨f, by simp [hf], u, hu⟩
  · rintro ⟨f, hf, u, hu⟩
    rcases timepLoop_total parse toLocal s formats with h | h
    · exact h
    · obtain ⟨e, he⟩ := h f hf
      rw [hu] at he
      cases he

/-! ## Claims on `OnEnterCommand` -/

/-- C10: the indexing is not within bounds for every non-empty input. With the
input "login" the fields are `["login"]` and `parts[1]` panics; with
"login alice" `parts[2]` panics; with the input " " there is no field at all
and `parts[0]` panics. -/
theorem onEnterCommand_index_out_of_range {S C : Type} (env : AppEnv S C)
    (commands : List String) (manager : Option XRPCManager) (st : S) :
    OnEnterCommand env ⟨commands, "login", manager⟩ st = .error (.indexOutOfRange 1 1) ∧
    OnEnterCommand env ⟨commands, "login alice", manager⟩ st
      = .error (.indexOutOfRange 2 2) ∧
    OnEnterCommand env ⟨commands, " ", manager⟩ st = .error (.indexOutOfRange 0 0) :=
  ⟨by rfl, by rfl, by rfl⟩

theorem getXRPCManager_frame {S C : Type} (env : AppEnv S C) (a : CommandApp) (st : S) :
    (getXRPCManager env a st).2.commands = a.commands ∧
    (getXRPCManager env a st).2.input = a.input := by
  unfold getXRPCManager
  cases a.manager with
  | some m => exact ⟨rfl, rfl⟩
  | none =>
    simp only
    cases env.storageGet st "handle" with
    | error e => exact ⟨rfl, rfl⟩
    | ok handle =>
      simp only
      cases env.storageGet st "password" with
      | error e => exact ⟨rfl, rfl⟩
      | ok password => exact ⟨rfl, rfl⟩

theorem handleFollow_frame {S C : Type} (env : AppEnv S C) (a : CommandApp) (st : S) :
    a.commands <+: (handleFollow env a st).2.1.commands ∧
    (handleFollow env a st).2.1.input = a.input := by
  obtain ⟨hc, hi⟩ := getXRPCManager_frame env a st
  unfold handleFollow
  rcases hg : getXRPCManager env a st with ⟨r, b⟩
  rw [hg] at hc hi
  simp only at hc hi
  cases r with
  | error e =>
    simp only
    exact ⟨by rw [hc], hi⟩
  | ok m =>
    simp only
    rcases hm : env.makeXRPCC m st with ⟨r2, st2⟩
    cases r2 with
    | error e =>
      simp only
      exact ⟨by rw [hc], hi⟩
    | ok client =>
      simp only
      split
      · split
        · exact ⟨by rw [← hc]; exact List.prefix_append _ _, hi⟩
        · exact ⟨by rw [← hc]; exact List.prefix_append _ _, hi⟩
      · exact ⟨by rw [← hc]; exact List.prefix_append _ _, hi⟩

theorem followsBranch_frame {S C : Type} (env : AppEnv S C) (a : CommandApp) (st : S) :
    a.commands <+: (followsBranch env a st).2.1.commands ∧
    (followsBranch env a st).2.1.input = a.input := by
  unfold followsBranch
  simp only
  cases env.storageGet st "handle" with
  | error e => exact ⟨List.prefix_append _ _, rfl⟩
  | ok handle =>
    simp only
    cases env.storageGet st "password" with
    | error e => exact ⟨List.prefix_append _ _, rfl⟩
    | ok password =>
      simp only
      rcases env.makeXRPCC ⟨handle, password⟩ st with ⟨r, st2⟩
      cases r with
      | error e =>
        simp only
        split
        · refine ⟨?_, rfl⟩
          simp only [List.append_assoc]
          exact List.prefix_append _ _
        · refine ⟨?_, rfl⟩
          simp only [List.append_assoc]
          exact List.prefix_append _ _
      | ok c =>
        simp only
        split
        · refine ⟨?_, rfl⟩
          simp only [List.append_assoc]
          exact List.prefix_append _ _
        · refine ⟨?_, rfl⟩
          simp only [List.append_assoc]
          exact List.prefix_append _ _

/-- Whenever `OnEnterCommand` returns, the input field is empty afterwards
(it is reset, or was empty and nothing was done) and the command history is
the previous history with entries appended. -/
theorem onEnterCommand_resets_input_and_appends {S C : Type} (env : AppEnv S C)
    (a a2 : CommandApp) (st st2 : S) (h : OnEnterCommand env a st = .ok (a2, st2)) :
    a2.input = "" ∧ a.commands <+: a2.commands := by
  unfold OnEnterCommand at h
  by_cases hin : a.input ≠ ""
  · rw [if_pos hin] at h
    simp only at h
    cases hidx : indexParts (Fields a.input) 0 with
    | error p =>
      rw [hidx] at h
      cases h
    | ok command =>
      rw [hidx] at h
      simp only at h
      have hrun : ∀ r, runCommand env a st (Fields a.input) command = .ok r →
          a.commands <+: r.2.1.commands := by
        intro r hr
        unfold runCommand at hr
        split_ifs at hr
        · cases h1 : indexParts (Fields a.input) 1 with
          | error p =>
            rw [h1] at hr
            cases hr
          | ok handle =>
            rw [h1] at hr
            simp only at hr
            cases h2 : indexParts (Fields a.input) 2 with
            | error p =>
              rw [h2] at hr
              cases hr
            | ok password =>
              rw [h2] at hr
              cases hr
              exact List.prefix_append _ _
        · cases hr
          exact (handleFollow_frame env a st).1
        · cases hr
          exact (followsBranch_frame env a st).1
        · cases hr
          exact List.prefix_append _ _
      cases hr : runCommand env a st (Fields a.input) command with
      | error p =>
        rw [hr] at h
        cases h
      | ok r =>
        rw [hr] at h
        obtain ⟨err, b, st3⟩ := r
        have hpre := hrun _ hr
        simp only at h hpre
        cases h
        refine ⟨rfl, ?_⟩
        cases err with
        | none => exact hpre
        | some e => exact hpre.trans (List.prefix_append _ _)
  · rw [if_neg hin] at h
    cases h
    exact ⟨not_not.mp hin, List.prefix_refl _⟩

/-- A run of `OnEnterCommand` on a well-formed "login" command. -/
theorem onEnterCommand_resets_input_and_appends_witness :
    OnEnterCommand sampleAppEnv ⟨["earlier"], "login alice hunter2", none⟩ []
      = .ok (⟨["earlier", "Command: login alice hunter2\nOutput: Login credentials stored"],
          "", none⟩, [("password", "hunter2"), ("handle", "alice")]) ∧
    ["earlier"] <+: ["earlier", "Command: login alice hunter2\nOutput: Login credentials stored"] :=
  ⟨by rfl, (onEnterCommand_resets_input_and_appends sampleAppEnv
    ⟨["earlier"], "login alice hunter2", none⟩
    ⟨["earlier", "Command: login alice hunter2\nOutput: Login credentials stored"], "", none⟩
    [] [("password", "hunter2"), ("handle", "alice")] (by rfl)).2⟩

/-! ## The calendar of the library `time` -/

theorem toUint64_of_range (x : Int) (h0 : 0 ≤ x) (h1 : x < 18446744073709551616) :
    (toUint64 x : Int) = x := by
  unfold toUint64
  rw [Int.emod_eq_of_lt h0 h1]
  exact Int.toNat_of_nonneg h0

theorem toInt64_of_range (x : Int) (h0 : -9223372036854775808 ≤ x)
    (h1 : x < 9223372036854775808) : toInt64 x = x := by
  unfold toInt64
  rw [Int.emod_eq_of_lt (by omega) (by omega)]
  omega

theorem norm_of_range (hi lo base : Int) (h0 : 0 ≤ lo) (h1 : lo < base) :
    norm hi lo base = (hi, lo) := by
  unfold norm
  simp only [if_neg (not_lt.mpr h0), ge_iff_le, if_neg (not_le.mpr h1)]

/-- The days before a year, from the digits of the year in the mixed base
400, 100, 4, 1. -/
theorem daysSinceEpoch_digits (a b c e : Nat) (hb : b ≤ 3) (hc : c ≤ 24) (he : e ≤ 3)
    (ha : a < 1000000000) :
    daysSinceEpoch ((400 * a + 100 * b + 4 * c + e : Nat) + absoluteZeroYear)
      = 146097 * a + 36524 * b + 1461 * c + 365 * e := by
  have hu : toUint64 (((400 * a + 100 * b + 4 * c + e : Nat) : Int) + absoluteZeroYear
      - absoluteZeroYear) = 400 * a + 100 * b + 4 * c + e := by
    have := toUint64_of_range ((400 * a + 100 * b + 4 * c + e : Nat) : Int) (by omega) (by omega)
    rw [add_sub_cancel_right]
    exact_mod_cast this
  unfold daysSinceEpoch
  rw [hu]
  have h1 : (400 * a + 100 * b + 4 * c + e) / 400 = a := by omega
  simp only [h1]
  have h2 : 400 * a + 100 * b + 4 * c + e - 400 * a = 100 * b + 4 * c + e := by omega
  simp only [h2]
  have h3 : (100 * b + 4 * c + e) / 100 = b := by omega
  simp only [h3]
  have h4 : 100 * b + 4 * c + e - 100 * b = 4 * c + e := by omega
  simp only [h4]
  have h5 : (4 * c + e) / 4 = c := by omega
  simp only [h5]
  have h6 : 4 * c + e - 4 * c = e := by omega
  simp only [h6]

theorem absYear_digits (a b c e yday : Nat) (hb : b ≤ 3) (hc : c ≤ 24) (he : e ≤ 3)
    (ha : a < 1000000000)
    (hy : yday < 365 ∨ (yday = 365 ∧ e = 3 ∧ (c ≠ 24 ∨ b = 3))) :
    absYear (146097 * a + 36524 * b + 1461 * c + 365 * e + yday)
      = ((400 * a + 100 * b + 4 * c + e : Nat) + absoluteZeroYear, yday) := by
  unfold absYear
  have h1 : (146097 * a + 36524 * b + 1461 * c + 365 * e + yday) / 146097 = a := by omega
  simp only [h1]
  have h2 : 146097 * a + 36524 * b + 1461 * c + 365 * e + yday - 146097 * a
      = 36524 * b + 1461 * c + 365 * e + yday := by omega
  simp only [h2]
  have h3 : (36524 * b + 1461 * c + 365 * e + yday) / 36524
      - (36524 * b + 1461 * c + 365 * e + yday) / 36524 / 4 = b := by
    clear h1 h2
    by_cases hlast : b = 3 ∧ c = 24 ∧ e = 3 ∧ yday = 365
    · obtain ⟨rfl, rfl, rfl, rfl⟩ := hlast
      rfl
    · have hq : (36524 * b + 1461 * c + 365 * e + yday) / 36524 = b := by omega
      rw [hq]
      omega
  simp only [h3]
  have h4 : 36524 * b + 1461 * c + 365 * e + yday - 36524 * b = 1461 * c + 365 * e + yday := by
    omega
  simp only [h4]
  have h5 : (1461 * c + 365 * e + yday) / 1461 = c := by omega
  simp only [h5]
  have h6 : 1461 * c + 365 * e + yday - 1461 * c = 365 * e + yday := by omega
  simp only [h6]
  have h7 : (365 * e + yday) / 365 - (365 * e + yday) / 365 / 4 = e := by
    clear h1 h2 h3 h4 h5 h6
    by_cases hlast : yday = 365
    · have he3 : e = 3 := by omega
      subst he3 hlast
      rfl
    · have hq : (365 * e + yday) / 365 = e := by omega
      rw [hq]
      omega
  simp only [h7]
  have h8 : 365 * e + yday - 365 * e = yday := by omega
  simp only [h8]
  have h9 : toInt64 (((400 * a + 100 * b + 4 * c + e : Nat) : Int) + absoluteZeroYear)
      = ((400 * a + 100 * b + 4 * c + e : Nat) : Int) + absoluteZeroYear := by
    apply toInt64_of_range
    · simp only [absoluteZeroYear]
      omega
    · simp only [absoluteZeroYear]
      omega
  rw [h9]

theorem isLeap_digits (a b c e : Nat) (hb : b ≤ 3) (hc : c ≤ 24) (he : e ≤ 3) :
    isLeap ((400 * a + 100 * b + 4 * c + e : Nat) + absoluteZeroYear) = true ↔
      e = 3 ∧ (c ≠ 24 ∨ b = 3) := by
  simp only [isLeap, absoluteZeroYear, Bool.and_eq_true, Bool.or_eq_true, beq_iff_eq,
    bne_iff_ne, ne_eq]
  omega

/-- Every number of days splits into 400-year, 100-year, 4-year and 1-year
cycles and a day of the year. -/
theorem exists_year_digits (days : Nat) :
    ∃ a b c e yday, b ≤ 3 ∧ c ≤ 24 ∧ e ≤ 3 ∧
      (yday < 365 ∨ (yday = 365 ∧ e = 3 ∧ (c ≠ 24 ∨ b = 3))) ∧
      days = 146097 * a + 36524 * b + 1461 * c + 365 * e + yday := by
  have hb : min (days % 146097 / 36524) 3 ≤ 3 := Nat.min_le_right _ _
  generalize hbdef : min (days % 146097 / 36524) 3 = b at hb
  have hbv : b = days % 146097 / 36524 ∨ (b = 3 ∧ days % 146097 / 36524 = 4) := by
    have : days % 146097 / 36524 ≤ 4 := by omega
    rw [← hbdef]
    omega
  have hr2 : days % 146097 - 36524 * b ≤ 36524 := by omega
  generalize hcdef : (days % 146097 - 36524 * b) / 1461 = c
  have hc : c ≤ 24 := by omega
  have hr3 : days % 146097 - 36524 * b - 1461 * c ≤ 1460 := by omega
  have he : min ((days % 146097 - 36524 * b - 1461 * c) / 365) 3 ≤ 3 := Nat.min_le_right _ _
  generalize hedef : min ((days % 146097 - 36524 * b - 1461 * c) / 365) 3 = e at he
  have hev : e = (days % 146097 - 36524 * b - 1461 * c) / 365 ∨
      (e = 3 ∧ (days % 146097 - 36524 * b - 1461 * c) / 365 = 4) := by
    have : (days % 146097 - 36524 * b - 1461 * c) / 365 ≤ 4 := by omega
    rw [← hedef]
    omega
  refine ⟨days / 146097, b, c, e, days % 146097 - 36524 * b - 1461 * c - 365 * e,
    hb, hc, he, ?_, ?_⟩
  · omega
  · omega

theorem monthDay_core (day mo d : Nat) (hmo1 : 1 ≤ mo) (hmo2 : mo ≤ 12) (hd1 : 1 ≤ d)
    (hd2 : d ≤ daysBefore mo - daysBefore (mo - 1)) (hday : day + 1 = daysBefore (mo - 1) + d) :
    (if day ≥ daysBefore (day / 31 + 1) then (day / 31 + 2, day - daysBefore (day / 31 + 1) + 1)
      else (day / 31 + 1, day - daysBefore (day / 31) + 1)) = (mo, d) := by
  have hle : day ≤ 364 := by
    interval_cases mo <;> simp only [daysBefore, Nat.reduceSub, Nat.reduceAdd] at hd2 hday <;>
      omega
  have hq1 := Nat.mul_div_le day 31
  have hq2 := Nat.lt_mul_div_succ day (by norm_num : 0 < 31)
  generalize day / 31 = q at hq1 hq2 ⊢
  have hq : q ≤ 11 := by omega
  interval_cases q <;> interval_cases mo <;>
    simp only [daysBefore, Nat.reduceAdd, Nat.reduceSub] at hd2 hday ⊢ <;>
    (split_ifs <;> refine Prod.ext ?_ ?_ <;> dsimp only <;> omega)

/-- Every day of a 365-day year lies in a month. -/
theorem exists_month_day (day : Nat) (h : day < 365) :
    ∃ mo d, 1 ≤ mo ∧ mo ≤ 12 ∧ 1 ≤ d ∧ d ≤ daysBefore mo - daysBefore (mo - 1) ∧
      day = daysBefore (mo - 1) + d - 1 := by
  by_cases h1 : day < 31
  · exact ⟨1, day + 1, by simp [daysBefore]; omega⟩
  by_cases h2 : day < 59
  · exact ⟨2, day - 31 + 1, by simp [daysBefore]; omega⟩
  by_cases h3 : day < 90
  · exact ⟨3, day - 59 + 1, by simp [daysBefore]; omega⟩
  by_cases h4 : day < 120
  · exact ⟨4, day - 90 + 1, by simp [daysBefore]; omega⟩
  by_cases h5 : day < 151
  · exact ⟨5, day - 120 + 1, by simp [daysBefore]; omega⟩
  by_cases h6 : day < 181
  · exact ⟨6, day - 151 + 1, by simp [daysBefore]; omega⟩
  by_cases h7 : day < 212
  · exact ⟨7, day - 181 + 1, by simp [daysBefore]; omega⟩
  by_cases h8 : day < 243
  · exact ⟨8, day - 212 + 1, by simp [daysBefore]; omega⟩
  by_cases h9 : day < 273
  · exact ⟨9, day - 243 + 1, by simp [daysBefore]; omega⟩
  by_cases h10 : day < 304
  · exact ⟨10, day - 273 + 1, by simp [daysBefore]; omega⟩
  by_cases h11 : day < 334
  · exact ⟨11, day - 304 + 1, by simp [daysBefore]; omega⟩
  · exact ⟨12, day - 334 + 1, by simp [daysBefore]; omega⟩

theorem yearDay_lt (leap : Bool) (mo d : Nat) (hmo1 : 1 ≤ mo) (hmo2 : mo ≤ 12) (hd1 : 1 ≤ d)
    (hd2 : d ≤ monthLength leap mo) :
    yearDay leap mo d < 365 ∨ (yearDay leap mo d = 365 ∧ leap = true) := by
  cases leap <;> interval_cases mo <;>
    simp [yearDay, monthLength, daysBefore] at hd2 ⊢ <;> omega

theorem absMonthDay_yearDay (year : Int) (mo d : Nat) (hmo1 : 1 ≤ mo) (hmo2 : mo ≤ 12)
    (hd1 : 1 ≤ d) (hd2 : d ≤ monthLength (isLeap year) mo) :
    absMonthDay year (yearDay (isLeap year) mo d) = (mo, d) := by
  unfold absMonthDay
  cases hl : isLeap year
  · rw [hl] at hd2
    simp only [Bool.false_and, Bool.false_eq_true, if_false]
    have hd3 : d ≤ daysBefore mo - daysBefore (mo - 1) := by
      simpa [monthLength] using hd2
    have hday : yearDay false mo d + 1 = daysBefore (mo - 1) + d := by
      simp [yearDay]
      omega
    exact monthDay_core _ mo d hmo1 hmo2 hd1 hd3 hday
  · rw [hl] at hd2
    simp only [Bool.true_and, beq_iff_eq, decide_eq_true_eq]
    by_cases hfeb29 : mo = 2 ∧ d = 29
    · obtain ⟨rfl, rfl⟩ := hfeb29
      simp [yearDay, daysBefore]
    · have hne : yearDay true mo d ≠ 31 + 29 - 1 := by
        interval_cases mo <;> simp [yearDay, monthLength, daysBefore] at hd2 hfeb29 ⊢ <;> omega
      rw [if_neg hne]
      by_cases hmo3 : mo ≥ 3
      · have hgt : yearDay true mo d > 31 + 29 - 1 := by
          interval_cases mo <;> simp [yearDay, daysBefore] <;> omega
        rw [if_pos hgt]
        have hd3 : d ≤ daysBefore mo - daysBefore (mo - 1) := by
          have hm2 : ¬ (mo = 2) := by omega
          simpa [monthLength, hm2] using hd2
        have hday : yearDay true mo d - 1 + 1 = daysBefore (mo - 1) + d := by
          simp [yearDay, hmo3]
          omega
        exact monthDay_core _ mo d hmo1 hmo2 hd1 hd3 hday
      · have hgt : ¬ yearDay true mo d > 31 + 29 - 1 := by
          interval_cases mo <;> simp [yearDay, monthLength, daysBefore] at hd2 hfeb29 ⊢ <;> omega
        rw [if_neg hgt]
        have hd3 : d ≤ daysBefore mo - daysBefore (mo - 1) := by
          interval_cases mo <;> simp [monthLength, daysBefore] at hd2 hfeb29 ⊢ <;> omega
        have hday : yearDay true mo d + 1 = daysBefore (mo - 1) + d := by
          have : ¬ (3 ≤ mo) := hmo3
          simp [yearDay, this]
          omega
        exact monthDay_core _ mo d hmo1 hmo2 hd1 hd3 hday

/-- Every day of a year is the day of the year of a date of that year. -/
theorem exists_yearDay (leap : Bool) (yday : Nat)
    (h : yday < 365 ∨ (yday = 365 ∧ leap = true)) :
    ∃ mo d, 1 ≤ mo ∧ mo ≤ 12 ∧ 1 ≤ d ∧ d ≤ monthLength leap mo ∧ yearDay leap mo d = yday := by
  cases leap
  · have h365 : yday < 365 := by
      rcases h with h | ⟨_, h⟩
      · exact h
      · cases h
    obtain ⟨mo, d, h1, h2, h3, h4, h5⟩ := exists_month_day yday h365
    refine ⟨mo, d, h1, h2, h3, ?_, ?_⟩
    · simpa [monthLength] using h4
    · simp [yearDay]
      omega
  · by_cases hjf : yday < 59
    · obtain ⟨mo, d, h1, h2, h3, h4, h5⟩ := exists_month_day yday (by omega)
      have hmo : mo ≤ 2 := by
        by_contra hc
        have h3m : 3 ≤ mo := by omega
        interval_cases mo <;> simp [daysBefore] at h4 h5 <;> omega
      refine ⟨mo, d, h1, h2, h3, ?_, ?_⟩
      · interval_cases mo <;> simp [monthLength, daysBefore] at h4 ⊢ <;> omega
      · have : ¬ (3 ≤ mo) := by omega
        simp [yearDay, this]
        omega
    · by_cases hl : yday = 59
      · exact ⟨2, 29, by simp [monthLength, yearDay, daysBefore, hl]⟩
      · obtain ⟨mo, d, h1, h2, h3, h4, h5⟩ := exists_month_day (yday - 1) (by omega)
        have hmo : 3 ≤ mo := by
          by_contra hc
          have h2m : mo ≤ 2 := by omega
          interval_cases mo <;> simp [daysBefore] at h4 h5 <;> omega
        refine ⟨mo, d, h1, h2, h3, ?_, ?_⟩
        · have : ¬ (mo = 2) := by omega
          simpa [monthLength, this] using h4
        · simp [yearDay, hmo]
          omega

theorem daysIn_eq (mo : Nat) (y : Int) : daysIn mo y = monthLength (isLeap y) mo := rfl

/-- The digits of a year between `absoluteZeroYear` and the year 100000. -/
theorem exists_digits_of_year (y : Int) (h0 : absoluteZeroYear ≤ y) (h1 : y ≤ 100000) :
    ∃ a b c e : Nat, b ≤ 3 ∧ c ≤ 24 ∧ e ≤ 3 ∧ a < 1000000000 ∧
      y = (400 * a + 100 * b + 4 * c + e : Nat) + absoluteZeroYear := by
  obtain ⟨Y, hY⟩ := Int.eq_ofNat_of_zero_le (sub_nonneg.mpr h0)
  simp only [absoluteZeroYear] at h0 h1 hY ⊢
  refine ⟨Y / 400, Y % 400 / 100, Y % 100 / 4, Y % 4, by omega, by omega, by omega, by omega, ?_⟩
  have : 400 * (Y / 400) + 100 * (Y % 400 / 100) + 4 * (Y % 100 / 4) + Y % 4 = Y := by omega
  rw [this]
  omega

theorem dateUnix_valid (y : Int) (mo d h mi s : Nat) (ns : Int)
    (hy0 : absoluteZeroYear ≤ y) (hy1 : y ≤ 100000)
    (hv : ValidCivil y mo d h mi s) (hns0 : 0 ≤ ns) (hns1 : ns < 1000000000) :
    dateUnix y mo d h mi s ns = (civilUnix y mo d h mi s, ns) := by
  obtain ⟨hmo1, hmo2, hd1, hd2, hh, hmi, hs⟩ := hv
  obtain ⟨a, b, c, e, hb, hc, he, ha, hyd⟩ := exists_digits_of_year y hy0 hy1
  have hdse := daysSinceEpoch_digits a b c e hb hc he ha
  rw [← hyd] at hdse
  have hyd_le : yearDay (isLeap y) mo d ≤ 365 := by
    rcases yearDay_lt (isLeap y) mo d hmo1 hmo2 hd1 hd2 with h | ⟨h, _⟩ <;> omega
  unfold dateUnix civilUnix
  rw [norm_of_range y ((mo : Int) - 1) 12 (by omega) (by omega)]
  simp only
  rw [norm_of_range (s : Int) ns 1000000000 hns0 hns1]
  simp only
  rw [norm_of_range (mi : Int) (s : Int) 60 (by omega) (by omega)]
  simp only
  rw [norm_of_range (h : Int) (mi : Int) 60 (by omega) (by omega)]
  simp only
  rw [norm_of_range (d : Int) (h : Int) 24 (by omega) (by omega)]
  simp only
  have hm : ((mo : Int) - 1 + 1 - 1).toNat = mo - 1 := by omega
  have hge : (((mo : Int) - 1 + 1 ≥ 3) ↔ mo ≥ 3) := by omega
  rw [hm]
  have hdays : (if (isLeap y && decide ((mo : Int) - 1 + 1 ≥ 3)) = true then
        ((daysSinceEpoch y : Nat) : Int) + ((daysBefore (mo - 1) : Nat) : Int) + 1
      else ((daysSinceEpoch y : Nat) : Int) + ((daysBefore (mo - 1) : Nat) : Int)) + ((d : Int) - 1)
      = ((daysSinceEpoch y + yearDay (isLeap y) mo d : Nat) : Int) := by
    unfold yearDay
    simp only [hge]
    split_ifs <;> push_cast <;> omega
  rw [hdays]
  have hcast : ((daysSinceEpoch y + yearDay (isLeap y) mo d : Nat) : Int) * 86400
      + ((h : Int) * 3600 + (mi : Int) * 60 + (s : Int))
      = (((daysSinceEpoch y + yearDay (isLeap y) mo d) * 86400 + (h * 3600 + mi * 60 + s) : Nat)
        : Int) := by
    push_cast
    ring
  rw [hcast]
  have hbound : (daysSinceEpoch y + yearDay (isLeap y) mo d) * 86400 + (h * 3600 + mi * 60 + s)
      < 18446744073709551616 := by
    rw [hdse]
    omega
  rw [toUint64_of_range _ (by omega) (by exact_mod_cast hbound)]
  rw [toInt64_of_range]
  · simp only [unixToAbsolute]
    omega
  · simp only [unixToAbsolute]
    have := hbound
    omega

theorem civil_civilUnix (localOffset : Int → Int) (y : Int) (mo d h mi s n : Nat)
    (hy0 : absoluteZeroYear ≤ y) (hy1 : y ≤ 100000) (hv : ValidCivil y mo d h mi s) :
    civil localOffset ⟨civilUnix y mo d h mi s, n, .utc⟩ = (y, mo, d, h, mi, s) := by
  obtain ⟨hmo1, hmo2, hd1, hd2, hh, hmi, hs⟩ := hv
  obtain ⟨a, b, c, e, hb, hc, he, ha, hyd⟩ := exists_digits_of_year y hy0 hy1
  have hdse := daysSinceEpoch_digits a b c e hb hc he ha
  rw [← hyd] at hdse
  have hleap := isLeap_digits a b c e hb hc he
  rw [← hyd] at hleap
  have hyl := yearDay_lt (isLeap y) mo d hmo1 hmo2 hd1 hd2
  have hyd_le : yearDay (isLeap y) mo d ≤ 365 := by
    rcases hyl with h | ⟨h, _⟩ <;> omega
  have hbound : (daysSinceEpoch y + yearDay (isLeap y) mo d) * 86400 + (h * 3600 + mi * 60 + s)
      < 18446744073709551616 := by
    rw [hdse]
    omega
  unfold civil
  simp only [Location.offsetAt, civilUnix, add_zero, sub_add_cancel]
  have habs : toUint64 (((daysSinceEpoch y + yearDay (isLeap y) mo d) * 86400
      + (h * 3600 + mi * 60 + s) : Nat) : Int)
      = (daysSinceEpoch y + yearDay (isLeap y) mo d) * 86400 + (h * 3600 + mi * 60 + s) := by
    have := toUint64_of_range (((daysSinceEpoch y + yearDay (isLeap y) mo d) * 86400
      + (h * 3600 + mi * 60 + s) : Nat) : Int) (by omega) (by exact_mod_cast hbound)
    exact_mod_cast this
  rw [habs]
  have hdiv : ((daysSinceEpoch y + yearDay (isLeap y) mo d) * 86400 + (h * 3600 + mi * 60 + s))
      / 86400 = daysSinceEpoch y + yearDay (isLeap y) mo d := by omega
  have hmod : ((daysSinceEpoch y + yearDay (isLeap y) mo d) * 86400 + (h * 3600 + mi * 60 + s))
      % 86400 = h * 3600 + mi * 60 + s := by omega
  rw [hdiv, hmod, hdse]
  have hyc : yearDay (isLeap y) mo d < 365 ∨
      (yearDay (isLeap y) mo d = 365 ∧ e = 3 ∧ (c ≠ 24 ∨ b = 3)) := by
    rcases hyl with h | ⟨h, hl⟩
    · exact Or.inl h
    · exact Or.inr ⟨h, hleap.mp hl⟩
  rw [absYear_digits a b c e _ hb hc he ha hyc, ← hyd]
  simp only
  rw [absMonthDay_yearDay y mo d hmo1 hmo2 hd1 hd2]
  simp only
  have e1 : (h * 3600 + mi * 60 + s) / 3600 = h := by omega
  have e2 : (h * 3600 + mi * 60 + s) % 3600 / 60 = mi := by omega
  have e3 : (h * 3600 + mi * 60 + s) % 60 = s := by omega
  rw [e1, e2, e3]

theorem civilUnix_range (y : Int) (mo d h mi s : Nat) (hy0 : 0 ≤ y) (hy1 : y ≤ 9999)
    (hv : ValidCivil y mo d h mi s) :
    -62167219200 ≤ civilUnix y mo d h mi s ∧ civilUnix y mo d h mi s ≤ 253402300799 := by
  obtain ⟨hmo1, hmo2, hd1, hd2, hh, hmi, hs⟩ := hv
  obtain ⟨a, b, c, e, hb, hc, he, ha, hyd⟩ :=
    exists_digits_of_year y (by simp only [absoluteZeroYear]; omega) (by omega)
  have hdse := daysSinceEpoch_digits a b c e hb hc he ha
  rw [← hyd] at hdse
  have hleap := isLeap_digits a b c e hb hc he
  rw [← hyd] at hleap
  have hyl : yearDay (isLeap y) mo d < 365 ∨
      (yearDay (isLeap y) mo d = 365 ∧ e = 3 ∧ (c ≠ 24 ∨ b = 3)) := by
    rcases yearDay_lt (isLeap y) mo d hmo1 hmo2 hd1 hd2 with h | ⟨h, hl⟩
    · exact Or.inl h
    · exact Or.inr ⟨h, hleap.mp hl⟩
  unfold civilUnix
  rw [hdse]
  simp only [absoluteZeroYear] at hyd
  simp only [unixToAbsolute]
  generalize yearDay (isLeap y) mo d = yd at hyl
  have ha0 : 730692555 ≤ a := by omega
  have ha1 : a ≤ 730692580 := by omega
  constructor
  · by_cases haa : a = 730692555
    · subst haa
      have hb3 : b = 3 := by omega
      have hc3 : c = 24 := by omega
      have he3 : e = 3 := by omega
      subst hb3 hc3 he3
      push_cast
      omega
    · have : 730692556 ≤ a := by omega
      push_cast
      omega
  · by_cases haa : a = 730692580
    · subst haa
      push_cast
      rcases hyl with h1 | ⟨h1, h2, h3⟩
      · omega
      · omega
    · have : a ≤ 730692579 := by omega
      push_cast
      omega

/-- Every instant of the years 0000 to 9999 is the Unix time of a date and
time of day. -/
theorem exists_civil_of_unix (U : Int) (h0 : -62167219200 ≤ U) (h1 : U ≤ 253402300799) :
    ∃ (y : Int) (mo d h mi s : Nat), 0 ≤ y ∧ y ≤ 9999 ∧ ValidCivil y mo d h mi s ∧
      civilUnix y mo d h mi s = U := by
  obtain ⟨N, hN⟩ := Int.eq_ofNat_of_zero_le
    (show 0 ≤ U + unixToAbsolute by simp only [unixToAbsolute]; omega)
  simp only [unixToAbsolute] at hN
  obtain ⟨a, b, c, e, yd, hb, hc, he, hyd, hdays⟩ := exists_year_digits (N / 86400)
  have hNlo : 9223371966548102400 ≤ N := by omega
  have hNhi : N ≤ 9223372282117622399 := by omega
  have hdlo : 106751990353566 ≤ N / 86400 := by omega
  have hdhi : N / 86400 ≤ 106751994005990 := by omega
  have ha0 : 730692555 ≤ a := by omega
  have ha1 : a ≤ 730692580 := by omega
  have hleap := isLeap_digits a b c e hb hc he
  have hyl : yd < 365 ∨ (yd = 365 ∧
      isLeap ((400 * a + 100 * b + 4 * c + e : Nat) + absoluteZeroYear) = true) := by
    rcases hyd with h | ⟨h, hl⟩
    · exact Or.inl h
    · exact Or.inr ⟨h, hleap.mpr hl⟩
  obtain ⟨mo, d, hmo1, hmo2, hd1, hd2, hydeq⟩ := exists_yearDay _ yd hyl
  have hdse := daysSinceEpoch_digits a b c e hb hc he (by omega)
  refine ⟨(400 * a + 100 * b + 4 * c + e : Nat) + absoluteZeroYear, mo, d,
    N % 86400 / 3600, N % 86400 % 3600 / 60, N % 60, ?_, ?_, ?_, ?_⟩
  · simp only [absoluteZeroYear]
    by_cases haa : a = 730692555
    · subst haa
      have hb3 : b = 3 := by omega
      have hc3 : c = 24 := by omega
      have he3 : e = 3 := by omega
      omega
    · omega
  · simp only [absoluteZeroYear]
    by_cases haa : a = 730692580
    · subst haa
      have hlast : ¬ (b = 3 ∧ c = 24 ∧ e = 3) := by
        rintro ⟨rfl, rfl, rfl⟩
        omega
      omega
    · omega
  · exact ⟨hmo1, hmo2, hd1, hd2, by omega, by omega, by omega⟩
  · unfold civilUnix
    rw [hdse, hydeq]
    simp only [unixToAbsolute]
    have : (146097 * a + 36524 * b + 1461 * c + 365 * e + yd) * 86400 +
        (N % 86400 / 3600 * 3600 + N % 86400 % 3600 / 60 * 60 + N % 60) = N := by
      rw [← hdays]
      omega
    rw [this]
    omega

theorem isDigitChar_digitChar (a : Nat) (h : a < 10) : isDigitChar (digitChar a) = true := by
  interval_cases a <;> rfl

theorem digitVal_digitChar (a : Nat) (h : a < 10) : digitVal (digitChar a) = a := by
  interval_cases a <;> rfl

theorem digitChar_ne_minus (a : Nat) (h : a < 10) : digitChar a ≠ '-' := by
  interval_cases a <;> decide

theorem digitChar_ne_plus (a : Nat) (h : a < 10) : digitChar a ≠ '+' := by
  interval_cases a <;> decide

theorem commaOrPeriod_digitChar (a : Nat) (h : a < 10) : commaOrPeriod (digitChar a) = false := by
  interval_cases a <;> rfl

theorem fixedDigits_length (k n : Nat) : (fixedDigits k n).length = k := by
  induction k with
  | zero => rfl
  | succ k ih => simp [fixedDigits, ih]

theorem fixedDigits_snoc (k n : Nat) :
    fixedDigits (k + 1) n = fixedDigits k (n / 10) ++ [digitChar (n % 10)] := by
  induction k with
  | zero => simp [fixedDigits]
  | succ k ih =>
    have h1 : fixedDigits (k + 1 + 1) n = digitChar (n / 10 ^ (k + 1) % 10) :: fixedDigits (k + 1) n :=
      rfl
    have h2 : fixedDigits (k + 1) (n / 10) = digitChar (n / 10 / 10 ^ k % 10) :: fixedDigits k (n / 10) :=
      rfl
    rw [h1, ih, h2]
    have h3 : n / 10 ^ (k + 1) = n / 10 / 10 ^ k := by
      rw [Nat.div_div_eq_div_mul, pow_succ, Nat.mul_comm]
    rw [h3]
    rfl

theorem fixedDigits_zero (k : Nat) : fixedDigits k 0 = List.replicate k '0' := by
  induction k with
  | zero => rfl
  | succ k ih =>
    simp only [fixedDigits, Nat.zero_div, Nat.zero_mod, ih, List.replicate_succ]
    rfl

theorem decimalDigits_pad (k : Nat) : ∀ n, n < 10 ^ (k + 1) →
    (decimalDigits n).length ≤ k + 1 ∧
    List.replicate (k + 1 - (decimalDigits n).length) '0' ++ decimalDigits n
      = fixedDigits (k + 1) n := by
  induction k with
  | zero =>
    intro n hn
    have hn10 : n < 10 := by simpa using hn
    rw [decimalDigits, if_pos hn10]
    simp [fixedDigits, Nat.mod_eq_of_lt hn10]
  | succ k ih =>
    intro n hn
    by_cases hn10 : n < 10
    · rw [decimalDigits, if_pos hn10]
      rw [fixedDigits_snoc, Nat.div_eq_of_lt hn10, fixedDigits_zero, Nat.mod_eq_of_lt hn10]
      simp
    · have hdiv : n / 10 < 10 ^ (k + 1) := by
        rw [Nat.div_lt_iff_lt_mul (by norm_num)]
        rw [pow_succ] at hn
        exact hn
      obtain ⟨hlen, hpad⟩ := ih (n / 10) hdiv
      rw [decimalDigits, if_neg hn10]
      refine ⟨by simp; omega, ?_⟩
      rw [fixedDigits_snoc, ← hpad]
      simp only [List.length_append, List.length_singleton, List.append_assoc]
      congr 2
      omega

theorem appendInt_nat (k n : Nat) (hn : n < 10 ^ (k + 1)) :
    appendInt (n : Int) (k + 1) = fixedDigits (k + 1) n := by
  unfold appendInt
  have hneg : ¬ ((n : Int) < 0) := by omega
  simp only [if_neg hneg, Int.natAbs_ofNat, List.nil_append]
  exact (decimalDigits_pad k n hn).2

theorem fixedDigits_take (j k n : Nat) :
    (fixedDigits (j + k) n).take j = fixedDigits j (n / 10 ^ k) := by
  induction j with
  | zero => simp [fixedDigits]
  | succ j ih =>
    have h1 : fixedDigits (j + 1 + k) n = digitChar (n / 10 ^ (j + k) % 10) :: fixedDigits (j + k) n := by
      rw [show j + 1 + k = (j + k) + 1 by omega]
      rfl
    rw [h1, List.take_succ_cons, ih]
    have h2 : n / 10 ^ (j + k) = n / 10 ^ k / 10 ^ j := by
      rw [Nat.div_div_eq_div_mul, ← pow_add, Nat.add_comm]
    rw [h2]
    rfl

theorem leadingInt_fixedDigits (k n : Nat) (rest : List Char) (x : Nat) :
    leadingInt (fixedDigits k n ++ rest) x = leadingInt rest (x * 10 ^ k + n % 10 ^ k) := by
  induction k generalizing x with
  | zero => simp [fixedDigits, Nat.mod_one]
  | succ k ih =>
    have hd : n / 10 ^ k % 10 < 10 := Nat.mod_lt _ (by norm_num)
    rw [show fixedDigits (k + 1) n ++ rest = digitChar (n / 10 ^ k % 10) :: (fixedDigits k n ++ rest)
      from rfl]
    rw [leadingInt, isDigitChar_digitChar _ hd, if_pos rfl, digitVal_digitChar _ hd, ih]
    congr 1
    rw [Nat.mod_pow_succ, pow_succ]
    ring

theorem atoiDigits_fixedDigits (k n : Nat) : atoiDigits (fixedDigits k n) = some (n % 10 ^ k) := by
  unfold atoiDigits
  have := leadingInt_fixedDigits k n [] 0
  rw [List.append_nil] at this
  rw [this]
  simp [leadingInt]

theorem atoi_fixedDigits (k n : Nat) (hn : n < 10 ^ (k + 1)) :
    atoi (fixedDigits (k + 1) n) = some (n : Int) := by
  have hd : n / 10 ^ k % 10 < 10 := Nat.mod_lt _ (by norm_num)
  have h := atoiDigits_fixedDigits (k + 1) n
  rw [Nat.mod_eq_of_lt hn] at h
  have hcons : fixedDigits (k + 1) n = digitChar (n / 10 ^ k % 10) :: fixedDigits k n := rfl
  rw [hcons] at h ⊢
  unfold atoi
  simp only [if_neg (digitChar_ne_minus _ hd), if_neg (digitChar_ne_plus _ hd), h, Option.map_some']
  rfl

theorem takeWhile_fixedDigits (k n : Nat) (c : Char) (rest : List Char)
    (hc : isDigitChar c = false) :
    (fixedDigits k n ++ c :: rest).takeWhile isDigitChar = fixedDigits k n := by
  induction k with
  | zero => simp [fixedDigits, List.takeWhile, hc]
  | succ k ih =>
    have hd : n / 10 ^ k % 10 < 10 := Nat.mod_lt _ (by norm_num)
    simp only [fixedDigits, List.cons_append, List.takeWhile_cons, isDigitChar_digitChar _ hd,
      if_true, ih]

theorem getnum_fixedDigits (n : Nat) (hn : n < 100) (rest : List Char) (isFixed : Bool) :
    getnum (fixedDigits 2 n ++ rest) isFixed = some (n, rest) := by
  have h1 : n / 10 ^ 1 % 10 < 10 := Nat.mod_lt _ (by norm_num)
  have h0 : n / 10 ^ 0 % 10 < 10 := Nat.mod_lt _ (by norm_num)
  simp only [fixedDigits, List.cons_append, List.nil_append, getnum, isDigitChar_digitChar _ h1,
    isDigitChar_digitChar _ h0, digitVal_digitChar _ h1, digitVal_digitChar _ h0]
  simp
  omega

theorem chunksOf_layout0 : chunksOf "2006-01-02T15:04:05" = (dateTimeChunks, []) := by rfl

theorem chunksOf_layout1 : chunksOf "2006-01-02T15:04:05Z" = (dateTimeChunks, ['Z']) := by rfl

theorem chunksOf_layout2 :
    chunksOf "2006-01-02T15:04:05.000Z" = (dateTimeChunks ++ [([], .stdFracSecond0 3)], ['Z']) := by
  rfl

theorem chunksOf_layout3 :
    chunksOf "2006-01-02T15:04:05.000000Z"
      = (dateTimeChunks ++ [([], .stdFracSecond0 6)], ['Z']) := by
  rfl

theorem chunksOf_layout4 :
    chunksOf "2006-01-02T15:04:05-07:00" = (dateTimeChunks ++ [([], .stdNumColonTZ)], []) := by
  rfl

theorem chunksOf_RFC3339 :
    chunksOf RFC3339 = (dateTimeChunks ++ [([], .stdISO8601ColonTZ)], []) := by
  rfl

theorem skip_nil (value : List Char) : skip value [] = some value := by
  rw [skip]

theorem skip_cons_same (p : Char) (vs ps : List Char) (hp : p ≠ ' ') :
    skip (p :: vs) (p :: ps) = skip vs ps := by
  rw [skip]
  simp [hp]

theorem skip_cons_ne (v p : Char) (vs ps : List Char) (hp : p ≠ ' ') (hv : v ≠ p) :
    skip (v :: vs) (p :: ps) = none := by
  rw [skip]
  simp [hp, hv]

theorem skip_empty_cons (p : Char) (ps : List Char) (hp : p ≠ ' ') :
    skip [] (p :: ps) = none := by
  rw [skip]
  simp [hp]

theorem parseStd_year (next : Option Std) (st : ParseState) (y : Nat) (hy : y < 10000)
    (r : List Char) :
    parseStd .stdLongYear next st (fixedDigits 4 y ++ r) = some ({ st with year := y }, r) := by
  have hd : y / 10 ^ 3 % 10 < 10 := Nat.mod_lt _ (by norm_num)
  have ha := atoi_fixedDigits 3 y (by norm_num; exact hy)
  have hform : fixedDigits 4 y ++ r = digitChar (y / 10 ^ 3 % 10) :: digitChar (y / 10 ^ 2 % 10) ::
      digitChar (y / 10 ^ 1 % 10) :: digitChar (y / 10 ^ 0 % 10) :: r := rfl
  have hform2 : fixedDigits (3 + 1) y = [digitChar (y / 10 ^ 3 % 10), digitChar (y / 10 ^ 2 % 10),
      digitChar (y / 10 ^ 1 % 10), digitChar (y / 10 ^ 0 % 10)] := rfl
  rw [hform2] at ha
  rw [hform]
  simp only [parseStd, isDigitChar_digitChar _ hd, ha]
  rfl

theorem parseStd_month (next : Option Std) (st : ParseState) (mo : Nat) (h1 : 1 ≤ mo)
    (h2 : mo ≤ 12) (r : List Char) :
    parseStd .stdZeroMonth next st (fixedDigits 2 mo ++ r) = some ({ st with month := mo }, r) := by
  have hc : ¬ (mo = 0 ∨ 12 < mo) := by omega
  simp only [parseStd, getnum_fixedDigits mo (by omega) r true, if_neg hc]

theorem parseStd_day (next : Option Std) (st : ParseState) (d : Nat) (h : d < 100)
    (r : List Char) :
    parseStd .stdZeroDay next st (fixedDigits 2 d ++ r) = some ({ st with day := d }, r) := by
  simp only [parseStd, getnum_fixedDigits d h r true]

theorem parseStd_hour (next : Option Std) (st : ParseState) (h : Nat) (hh : h < 24)
    (r : List Char) :
    parseStd .stdHour next st (fixedDigits 2 h ++ r) = some ({ st with hour := h }, r) := by
  have hc : ¬ (24 ≤ h) := by omega
  simp only [parseStd, getnum_fixedDigits h (by omega) r false, if_neg hc]

theorem parseStd_minute (next : Option Std) (st : ParseState) (mi : Nat) (hmi : mi < 60)
    (r : List Char) :
    parseStd .stdZeroMinute next st (fixedDigits 2 mi ++ r) = some ({ st with min := mi }, r) := by
  have hc : ¬ (60 ≤ mi) := by omega
  simp only [parseStd, getnum_fixedDigits mi (by omega) r true, if_neg hc]

theorem parseStd_second (next : Option Std) (st : ParseState) (s : Nat) (hs : s < 60)
    (r : List Char) :
    parseStd .stdZeroSecond next st (fixedDigits 2 s ++ r)
      = fractionAfterSeconds next { st with sec := s } r := by
  have hc : ¬ (60 ≤ s) := by omega
  simp only [parseStd, getnum_fixedDigits s (by omega) r true, if_neg hc]

/-- Parsing a text that starts with `YYYY-MM-DDTHH:MM:SS` against a layout
that starts with `2006-01-02T15:04:05` reads the six fields and goes on with
what follows the seconds. -/
theorem parseChunks_dateTime (y mo d h mi s : Nat) (hy : y < 10000) (hmo1 : 1 ≤ mo)
    (hmo2 : mo ≤ 12) (hd : d < 100) (hh : h < 24) (hmi : mi < 60) (hs : s < 60)
    (more : List (List Char × Std)) (tail rest : List Char) :
    parseChunks (dateTimeChunks ++ more) tail {} (stampWith y mo d h mi s rest) =
      match fractionAfterSeconds (more.head?.map (·.2)) (stampState y mo d h mi s) rest with
      | none => none
      | some (st, value) => parseChunks more tail st value := by
  have c1 : ('-' : Char) ≠ ' ' := by decide
  have c2 : ('T' : Char) ≠ ' ' := by decide
  have c3 : (':' : Char) ≠ ' ' := by decide
  simp only [dateTimeChunks, stampWith, List.cons_append, List.nil_append, parseChunks, skip_nil,
    parseStd_year _ _ y hy, skip_cons_same _ _ _ c1, parseStd_month _ _ mo hmo1 hmo2,
    parseStd_day _ _ d hd, skip_cons_same _ _ _ c2, parseStd_hour _ _ h hh,
    skip_cons_same _ _ _ c3, parseStd_minute _ _ mi hmi, parseStd_second _ _ s hs,
    List.head?_cons, Option.map_some']
  rfl

theorem fractionAfterSeconds_nil (next : Option Std) (st : ParseState) :
    fractionAfterSeconds next st [] = some (st, []) := rfl

theorem fractionAfterSeconds_single (next : Option Std) (st : ParseState) (c : Char) :
    fractionAfterSeconds next st [c] = some (st, [c]) := rfl

theorem fractionAfterSeconds_other (next : Option Std) (st : ParseState) (c d : Char)
    (r : List Char) (hc : commaOrPeriod c = false) :
    fractionAfterSeconds next st (c :: d :: r) = some (st, c :: d :: r) := by
  simp [fractionAfterSeconds, hc]

/-- A fraction of `k + 1` digits after the seconds, where the layout has no
fraction, is read as nanoseconds. -/
theorem fractionAfterSeconds_fraction (st : ParseState) (k m : Nat) (hk : k ≤ 8)
    (hm : m < 10 ^ (k + 1)) :
    fractionAfterSeconds none st ('.' :: (fixedDigits (k + 1) m ++ ['Z']))
      = some ({ st with nsec := ((m * 10 ^ (8 - k) : Nat) : Int) }, ['Z']) := by
  have hd : m / 10 ^ k % 10 < 10 := Nat.mod_lt _ (by norm_num)
  have hZ : isDigitChar 'Z' = false := rfl
  have hform : ('.' :: (fixedDigits (k + 1) m ++ ['Z']))
      = '.' :: digitChar (m / 10 ^ k % 10) :: (fixedDigits k m ++ ['Z']) := rfl
  have hdot : commaOrPeriod '.' = true := rfl
  have htw : (fixedDigits k m ++ ['Z']).takeWhile isDigitChar = fixedDigits k m :=
    takeWhile_fixedDigits k m 'Z' [] hZ
  have hn : 2 + (fixedDigits k m).length = k + 2 := by
    rw [fixedDigits_length]
    omega
  have hpn : parseNanoseconds ('.' :: (fixedDigits (k + 1) m ++ ['Z'])) (k + 2)
      = some (((m * 10 ^ (8 - k) : Nat) : Int)) := by
    unfold parseNanoseconds
    have h10 : ¬ (k + 2 > 10) := by omega
    simp only [hdot, Bool.not_true, Bool.false_eq_true, if_false, if_neg h10]
    have htake : (List.take (k + 2) ('.' :: (fixedDigits (k + 1) m ++ ['Z']))).drop 1
        = fixedDigits (k + 1) m := by
      rw [show k + 2 = (k + 1) + 1 by omega, List.take_succ_cons]
      simp only [List.drop_succ_cons, List.drop_zero]
      rw [List.take_append_of_le_length (by rw [fixedDigits_length])]
      rw [List.take_of_length_le (by rw [fixedDigits_length])]
    rw [htake, atoi_fixedDigits k m hm]
    have hnn : ¬ ((m : Int) < 0) := by omega
    simp only [if_neg hnn]
    congr 1
    have : 10 - (k + 2) = 8 - k := by omega
    rw [this]
    push_cast
    rfl
  have hdrop : List.drop (k + 2) ('.' :: (fixedDigits (k + 1) m ++ ['Z'])) = ['Z'] := by
    rw [show k + 2 = (k + 1) + 1 by omega, List.drop_succ_cons]
    rw [List.drop_append_of_le_length (by rw [fixedDigits_length])]
    rw [List.drop_of_length_le (by rw [fixedDigits_length])]
    rfl
  rw [hform] at hpn hdrop ⊢
  simp only [fractionAfterSeconds, hdot, isDigitChar_digitChar _ hd, Bool.and_self, if_true,
    List.drop_succ_cons, List.drop_zero, htw, hn, hpn, Option.map_some', hdrop]

theorem finishParse_utc (localOffset : Int → Int) (y mo d h mi s ns : Nat) (hy : y ≤ 9999)
    (hv : ValidCivil y mo d h mi s) (hns : ns < 1000000000) :
    finishParse localOffset { stampState y mo d h mi s with nsec := (ns : Int) }
      = some ⟨civilUnix y mo d h mi s, ns, .utc⟩ := by
  have hv2 := hv
  obtain ⟨hmo1, hmo2, hd1, hd2, hh, hmi, hs⟩ := hv
  have hm : ¬ ((mo : Int) < 0) := by omega
  have hdn : ¬ ((d : Int) < 0) := by omega
  have hday : ¬ ((d : Int) < 1 ∨ (d : Int) > (daysIn mo (y : Int) : Nat)) := by omega
  have hdu := dateUnix_valid (y : Int) mo d h mi s (ns : Int)
    (by simp only [absoluteZeroYear]; omega) (by omega) hv2 (by omega) (by omega)
  simp only [finishParse, stampState, if_neg hm, if_neg hdn, Int.toNat_ofNat, if_neg hday, hdu]
  simp

theorem finishParse_zone (localOffset : Int → Int) (y mo d h mi s : Nat) (hy : y ≤ 9999)
    (hv : ValidCivil y mo d h mi s) :
    ∃ loc, finishParse localOffset { stampState y mo d h mi s with zoneOffset := 0 }
      = some ⟨civilUnix y mo d h mi s, 0, loc⟩ := by
  have hv2 := hv
  obtain ⟨hmo1, hmo2, hd1, hd2, hh, hmi, hs⟩ := hv
  have hm : ¬ ((mo : Int) < 0) := by omega
  have hdn : ¬ ((d : Int) < 0) := by omega
  have hday : ¬ ((d : Int) < 1 ∨ (d : Int) > (daysIn mo (y : Int) : Nat)) := by omega
  have hdu := dateUnix_valid (y : Int) mo d h mi s 0
    (by simp only [absoluteZeroYear]; omega) (by omega) hv2 (by omega) (by omega)
  simp only [finishParse, stampState, if_neg hm, if_neg hdn, Int.toNat_ofNat, if_neg hday, hdu]
  by_cases hl : localOffset (civilUnix (↑y) mo d h mi s) = 0
  · exact ⟨.localZone, by simp [hl]⟩
  · exact ⟨.fixed 0, by simp [hl]⟩

theorem appendZone_zero_numeric : appendZone 0 false = ['+', '0', '0', ':', '0', '0'] := by
  have h := appendInt_nat 1 0 (by norm_num)
  simp only [Nat.cast_zero] at h
  simp only [appendZone, Int.zero_tdiv, Int.tdiv_zero, Int.zero_tmod, lt_self_iff_false, if_false,
    Bool.false_eq_true, and_false, h]
  rfl

theorem appendZone_zero_iso : appendZone 0 true = ['Z'] := by
  simp [appendZone]

theorem appendNano_digits (ns j k : Nat) (hjk : j + k = 9) (hns : ns < 1000000000) :
    appendNano ns j = '.' :: fixedDigits j (ns / 10 ^ k) := by
  unfold appendNano
  rw [appendInt_nat 8 ns (by norm_num; exact hns)]
  rw [show 8 + 1 = j + k by omega, fixedDigits_take]

/-- What `Format` writes for a layout that starts with `2006-01-02T15:04:05`,
for a time whose date and time of day in its location are known. -/
theorem format_of_civil (localOffset : Int → Int) (layout : String)
    (more : List (List Char × Std)) (tail : List Char)
    (hl : chunksOf layout = (dateTimeChunks ++ more, tail)) (t : Time)
    (y mo d h mi s : Nat) (hciv : civil localOffset t = ((y : Int), mo, d, h, mi, s))
    (hy : y ≤ 9999) (hmo : mo < 100) (hd : d < 100) (hh : h < 100) (hmi : mi < 100)
    (hs : s < 100) :
    t.Format localOffset layout
      = String.mk (stampWith y mo d h mi s
          ((more.map (fun c => c.1 ++ formatStd localOffset t c.2)).flatten ++ tail)) := by
  have e4 := appendInt_nat 3 y (by norm_num; omega)
  have e2 : ∀ n : Nat, n < 100 → appendInt (n : Int) 2 = fixedDigits 2 n :=
    fun n hn => appendInt_nat 1 n (by norm_num; exact hn)
  unfold Time.Format
  rw [hl]
  simp only [dateTimeChunks, List.map_append, List.map_cons, List.map_nil, formatStd, hciv,
    List.flatten_append, List.flatten_cons, List.flatten_nil, e4, e2 mo hmo,
    e2 d hd, e2 h hh, e2 mi hmi, e2 s hs, stampWith,
    List.nil_append, List.cons_append, List.append_assoc, List.append_nil]

theorem validCivil_bounds {y : Int} {mo d h mi s : Nat} (hv : ValidCivil y mo d h mi s) :
    1 ≤ mo ∧ mo ≤ 12 ∧ d < 100 ∧ h < 24 ∧ mi < 60 ∧ s < 60 := by
  obtain ⟨hmo1, hmo2, hd1, hd2, hh, hmi, hs⟩ := hv
  have : daysIn mo y ≤ 31 := by
    rw [daysIn_eq]
    cases isLeap y <;> interval_cases mo <;> simp [monthLength, daysBefore]
  exact ⟨hmo1, hmo2, by omega, hh, hmi, hs⟩

/-- What `Format` writes for a layout that starts with `2006-01-02T15:04:05`,
for a time in UTC of the years 0000 to 9999. -/
theorem format_dateTime (localOffset : Int → Int) (layout : String)
    (more : List (List Char × Std)) (tail : List Char)
    (hl : chunksOf layout = (dateTimeChunks ++ more, tail))
    (y mo d h mi s ns : Nat) (hy : y ≤ 9999) (hv : ValidCivil y mo d h mi s) :
    Time.Format localOffset ⟨civilUnix y mo d h mi s, ns, .utc⟩ layout
      = String.mk (stampWith y mo d h mi s
          ((more.map (fun c => c.1 ++
            formatStd localOffset ⟨civilUnix y mo d h mi s, ns, .utc⟩ c.2)).flatten ++ tail)) := by
  have hciv := civil_civilUnix localOffset (y : Int) mo d h mi s ns
    (by simp only [absoluteZeroYear]; omega) (by omega) hv
  obtain ⟨hmo1, hmo2, hd, hh, hmi, hs⟩ := validCivil_bounds hv
  exact format_of_civil localOffset layout more tail hl _ y mo d h mi s hciv hy (by omega) hd
    (by omega) (by omega) (by omega)

theorem timeParse_error_of_parseChunks (localOffset : Int → Int) {layout : String}
    (value : String) {chunks : List (List Char × Std)} {tail : List Char}
    (hl : chunksOf layout = (chunks, tail))
    (hp : parseChunks chunks tail {} value.data = none) :
    ∃ e, timeParse localOffset layout value = .error e := by
  unfold timeParse
  rw [hl]
  simp only [hp]
  exact ⟨_, rfl⟩

theorem timeParse_ok_of_parseChunks (localOffset : Int → Int) {layout : String}
    (value : String) {chunks : List (List Char × Std)} {tail : List Char} {st : ParseState}
    {t : Time}
    (hl : chunksOf layout = (chunks, tail))
    (hp : parseChunks chunks tail {} value.data = some st)
    (hf : finishParse localOffset st = some t) :
    timeParse localOffset layout value = .ok t := by
  unfold timeParse
  rw [hl]
  simp only [hp, hf]

theorem timepLoop_cons_error {T E : Type} (parse : String → String → Except E T)
    (toLocal : T → T) (s f : String) (fs : List String) (h : ∃ e, parse f s = .error e) :
    timepLoop parse toLocal s (f :: fs) = timepLoop parse toLocal s fs := by
  obtain ⟨e, he⟩ := h
  simp [timepLoop, he]

theorem timepLoop_cons_ok {T E : Type} (parse : String → String → Except E T)
    (toLocal : T → T) (s f : String) (fs : List String) (t : T) (h : parse f s = .ok t) :
    timepLoop parse toLocal s (f :: fs) = .ok (toLocal t) := by
  simp [timepLoop, h]

theorem parse_layout0_plain (y mo d h mi s : Nat) (hy : y < 10000) (hmo1 : 1 ≤ mo)
    (hmo2 : mo ≤ 12) (hd : d < 100) (hh : h < 24) (hmi : mi < 60) (hs : s < 60) :
    parseChunks dateTimeChunks [] {} (stampWith y mo d h mi s [])
      = some (stampState y mo d h mi s) := by
  have h := parseChunks_dateTime y mo d h mi s hy hmo1 hmo2 hd hh hmi hs [] [] []
  rw [List.append_nil] at h
  rw [h, fractionAfterSeconds_nil]
  simp only [parseChunks, skip_nil]

theorem parse_layout0_rest (y mo d h mi s : Nat) (hy : y < 10000) (hmo1 : 1 ≤ mo)
    (hmo2 : mo ≤ 12) (hd : d < 100) (hh : h < 24) (hmi : mi < 60) (hs : s < 60)
    (c : Char) (r : List Char) (hc : commaOrPeriod c = false) :
    parseChunks dateTimeChunks [] {} (stampWith y mo d h mi s (c :: r)) = none := by
  have h := parseChunks_dateTime y mo d h mi s hy hmo1 hmo2 hd hh hmi hs [] [] (c :: r)
  rw [List.append_nil] at h
  rw [h]
  cases r with
  | nil =>
    rw [fractionAfterSeconds_single]
    simp only [parseChunks, skip_nil]
  | cons c2 r2 =>
    rw [fractionAfterSeconds_other _ _ c c2 r2 hc]
    simp only [parseChunks, skip_nil]

theorem parse_layout1_Z (y mo d h mi s : Nat) (hy : y < 10000) (hmo1 : 1 ≤ mo)
    (hmo2 : mo ≤ 12) (hd : d < 100) (hh : h < 24) (hmi : mi < 60) (hs : s < 60) :
    parseChunks dateTimeChunks ['Z'] {} (stampWith y mo d h mi s ['Z'])
      = some (stampState y mo d h mi s) := by
  have h := parseChunks_dateTime y mo d h mi s hy hmo1 hmo2 hd hh hmi hs [] ['Z'] ['Z']
  rw [List.append_nil] at h
  rw [h, fractionAfterSeconds_single]
  simp only [parseChunks, skip_cons_same 'Z' [] [] (by decide), skip_nil]

theorem parse_layout0_fraction (y mo d h mi s : Nat) (hy : y < 10000) (hmo1 : 1 ≤ mo)
    (hmo2 : mo ≤ 12) (hd : d < 100) (hh : h < 24) (hmi : mi < 60) (hs : s < 60)
    (k m : Nat) (hk : k ≤ 8) (hm : m < 10 ^ (k + 1)) :
    parseChunks dateTimeChunks [] {} (stampWith y mo d h mi s
      ('.' :: (fixedDigits (k + 1) m ++ ['Z']))) = none := by
  have h := parseChunks_dateTime y mo d h mi s hy hmo1 hmo2 hd hh hmi hs [] []
    ('.' :: (fixedDigits (k + 1) m ++ ['Z']))
  rw [List.append_nil] at h
  rw [h]
  simp only [List.head?_nil, Option.map_none']
  rw [fractionAfterSeconds_fraction _ k m hk hm]
  simp only [parseChunks, skip_nil]

theorem parse_layout1_fraction (y mo d h mi s : Nat) (hy : y < 10000) (hmo1 : 1 ≤ mo)
    (hmo2 : mo ≤ 12) (hd : d < 100) (hh : h < 24) (hmi : mi < 60) (hs : s < 60)
    (k m : Nat) (hk : k ≤ 8) (hm : m < 10 ^ (k + 1)) :
    parseChunks dateTimeChunks ['Z'] {} (stampWith y mo d h mi s
      ('.' :: (fixedDigits (k + 1) m ++ ['Z'])))
      = some { stampState y mo d h mi s with nsec := ((m * 10 ^ (8 - k) : Nat) : Int) } := by
  have h := parseChunks_dateTime y mo d h mi s hy hmo1 hmo2 hd hh hmi hs [] ['Z']
    ('.' :: (fixedDigits (k + 1) m ++ ['Z']))
  rw [List.append_nil] at h
  rw [h]
  simp only [List.head?_nil, Option.map_none']
  rw [fractionAfterSeconds_fraction _ k m hk hm]
  simp only [parseChunks, skip_cons_same 'Z' [] [] (by decide), skip_nil]

theorem parse_layout1_zone (y mo d h mi s : Nat) (hy : y < 10000) (hmo1 : 1 ≤ mo)
    (hmo2 : mo ≤ 12) (hd : d < 100) (hh : h < 24) (hmi : mi < 60) (hs : s < 60) :
    parseChunks dateTimeChunks ['Z'] {} (stampWith y mo d h mi s utcZoneChars) = none := by
  have h := parseChunks_dateTime y mo d h mi s hy hmo1 hmo2 hd hh hmi hs [] ['Z'] utcZoneChars
  rw [List.append_nil] at h
  rw [h]
  simp only [utcZoneChars]
  rw [fractionAfterSeconds_other _ _ _ _ _ (by rfl)]
  simp only [parseChunks, skip_cons_ne '+' 'Z' _ _ (by decide) (by decide)]

theorem parse_layout23_zone (y mo d h mi s : Nat) (hy : y < 10000) (hmo1 : 1 ≤ mo)
    (hmo2 : mo ≤ 12) (hd : d < 100) (hh : h < 24) (hmi : mi < 60) (hs : s < 60)
    (digits : Nat) (hdig : digits = 3 ∨ digits = 6) :
    parseChunks (dateTimeChunks ++ [([], .stdFracSecond0 digits)]) ['Z'] {}
      (stampWith y mo d h mi s utcZoneChars) = none := by
  rw [parseChunks_dateTime y mo d h mi s hy hmo1 hmo2 hd hh hmi hs]
  simp only [utcZoneChars]
  rw [fractionAfterSeconds_other _ _ _ _ _ (by rfl)]
  rcases hdig with rfl | rfl
  · simp [parseChunks, skip_nil, parseStd, parseNanoseconds, commaOrPeriod]
  · simp [parseChunks, skip_nil, parseStd]

theorem parse_layout4_zone (y mo d h mi s : Nat) (hy : y < 10000) (hmo1 : 1 ≤ mo)
    (hmo2 : mo ≤ 12) (hd : d < 100) (hh : h < 24) (hmi : mi < 60) (hs : s < 60) :
    parseChunks (dateTimeChunks ++ [([], .stdNumColonTZ)]) [] {}
      (stampWith y mo d h mi s utcZoneChars)
      = some { stampState y mo d h mi s with zoneOffset := 0 } := by
  rw [parseChunks_dateTime y mo d h mi s hy hmo1 hmo2 hd hh hmi hs]
  simp only [utcZoneChars]
  rw [fractionAfterSeconds_other _ _ _ _ _ (by rfl)]
  simp [parseChunks, skip_nil, parseStd, parseColonTZ, getnum, isDigitChar, digitVal]

theorem timep_stamp_plain (localOffset : Int → Int) (y mo d h mi s : Nat) (hy : y ≤ 9999)
    (hv : ValidCivil y mo d h mi s) :
    Timep (timeParse localOffset) Time.Local (String.mk (stampWith y mo d h mi s []))
      = .ok ⟨civilUnix y mo d h mi s, 0, .localZone⟩ := by
  obtain ⟨hmo1, hmo2, hd, hh, hmi, hs⟩ := validCivil_bounds hv
  have hp := parse_layout0_plain y mo d h mi s (by omega) hmo1 hmo2 hd hh hmi hs
  have hf := finishParse_utc localOffset y mo d h mi s 0 hy hv (by norm_num)
  have hok := timeParse_ok_of_parseChunks localOffset
    (String.mk (stampWith y mo d h mi s [])) chunksOf_layout0 hp hf
  unfold Timep formats
  rw [timepLoop_cons_ok _ _ _ _ _ _ hok]
  rfl

theorem timep_format_layout0 (localOffset : Int → Int) (y mo d h mi s ns : Nat) (hy : y ≤ 9999)
    (hv : ValidCivil y mo d h mi s) :
    Timep (timeParse localOffset) Time.Local
      ((Time.mk (civilUnix y mo d h mi s) ns .utc).Format localOffset "2006-01-02T15:04:05")
      = .ok ⟨civilUnix y mo d h mi s, 0, .localZone⟩ := by
  have hfmt := format_dateTime localOffset _ [] [] (by rw [List.append_nil]; exact chunksOf_layout0)
    y mo d h mi s ns hy hv
  simp only [List.map_nil, List.flatten_nil, List.append_nil] at hfmt
  rw [hfmt]
  exact timep_stamp_plain localOffset y mo d h mi s hy hv

theorem timep_stamp_Z (localOffset : Int → Int) (y mo d h mi s : Nat) (hy : y ≤ 9999)
    (hv : ValidCivil y mo d h mi s) :
    Timep (timeParse localOffset) Time.Local (String.mk (stampWith y mo d h mi s ['Z']))
      = .ok ⟨civilUnix y mo d h mi s, 0, .localZone⟩ := by
  obtain ⟨hmo1, hmo2, hd, hh, hmi, hs⟩ := validCivil_bounds hv
  have hp0 := parse_layout0_rest y mo d h mi s (by omega) hmo1 hmo2 hd hh hmi hs 'Z' [] (by rfl)
  have he0 := timeParse_error_of_parseChunks localOffset
    (String.mk (stampWith y mo d h mi s ['Z'])) chunksOf_layout0 hp0
  have hp := parse_layout1_Z y mo d h mi s (by omega) hmo1 hmo2 hd hh hmi hs
  have hf := finishParse_utc localOffset y mo d h mi s 0 hy hv (by norm_num)
  have hok := timeParse_ok_of_parseChunks localOffset
    (String.mk (stampWith y mo d h mi s ['Z'])) chunksOf_layout1 hp hf
  unfold Timep formats
  rw [timepLoop_cons_error _ _ _ _ _ he0, timepLoop_cons_ok _ _ _ _ _ _ hok]
  rfl

theorem timep_format_layout1 (localOffset : Int → Int) (y mo d h mi s ns : Nat) (hy : y ≤ 9999)
    (hv : ValidCivil y mo d h mi s) :
    Timep (timeParse localOffset) Time.Local
      ((Time.mk (civilUnix y mo d h mi s) ns .utc).Format localOffset "2006-01-02T15:04:05Z")
      = .ok ⟨civilUnix y mo d h mi s, 0, .localZone⟩ := by
  have hfmt := format_dateTime localOffset _ [] ['Z']
    (by rw [List.append_nil]; exact chunksOf_layout1) y mo d h mi s ns hy hv
  simp only [List.map_nil, List.flatten_nil, List.nil_append] at hfmt
  rw [hfmt]
  exact timep_stamp_Z localOffset y mo d h mi s hy hv

theorem timep_stamp_fraction (localOffset : Int → Int) (y mo d h mi s : Nat) (hy : y ≤ 9999)
    (hv : ValidCivil y mo d h mi s) (k m : Nat) (hk : k ≤ 8) (hm : m < 10 ^ (k + 1)) :
    Timep (timeParse localOffset) Time.Local
      (String.mk (stampWith y mo d h mi s ('.' :: (fixedDigits (k + 1) m ++ ['Z']))))
      = .ok ⟨civilUnix y mo d h mi s, m * 10 ^ (8 - k), .localZone⟩ := by
  obtain ⟨hmo1, hmo2, hd, hh, hmi, hs⟩ := validCivil_bounds hv
  have hp0 := parse_layout0_fraction y mo d h mi s (by omega) hmo1 hmo2 hd hh hmi hs k m hk hm
  have he0 := timeParse_error_of_parseChunks localOffset
    (String.mk (stampWith y mo d h mi s ('.' :: (fixedDigits (k + 1) m ++ ['Z']))))
    chunksOf_layout0 hp0
  have hp := parse_layout1_fraction y mo d h mi s (by omega) hmo1 hmo2 hd hh hmi hs k m hk hm
  have hlt : m * 10 ^ (8 - k) < 1000000000 := by
    have h1 : m * 10 ^ (8 - k) < 10 ^ (k + 1) * 10 ^ (8 - k) :=
      Nat.mul_lt_mul_of_pos_right hm (by positivity)
    have h2 : 10 ^ (k + 1) * 10 ^ (8 - k) = 1000000000 := by
      rw [← pow_add, show k + 1 + (8 - k) = 9 by omega]
      norm_num
    omega
  have hf := finishParse_utc localOffset y mo d h mi s (m * 10 ^ (8 - k)) hy hv hlt
  have hok := timeParse_ok_of_parseChunks localOffset
    (String.mk (stampWith y mo d h mi s ('.' :: (fixedDigits (k + 1) m ++ ['Z']))))
    chunksOf_layout1 hp hf
  unfold Timep formats
  rw [timepLoop_cons_error _ _ _ _ _ he0, timepLoop_cons_ok _ _ _ _ _ _ hok]
  rfl

theorem timep_format_layout2 (localOffset : Int → Int) (y mo d h mi s ns : Nat) (hy : y ≤ 9999)
    (hv : ValidCivil y mo d h mi s) (hns : ns < 1000000000) :
    Timep (timeParse localOffset) Time.Local
      ((Time.mk (civilUnix y mo d h mi s) ns .utc).Format localOffset "2006-01-02T15:04:05.000Z")
      = .ok ⟨civilUnix y mo d h mi s, ns / 1000000 * 1000000, .localZone⟩ := by
  have hfmt := format_dateTime localOffset _ _ _ chunksOf_layout2 y mo d h mi s ns hy hv
  simp only [List.map_cons, List.map_nil, List.flatten_cons, List.flatten_nil, List.nil_append,
    List.append_nil, formatStd, appendNano_digits ns 3 6 rfl hns] at hfmt
  rw [hfmt]
  have := timep_stamp_fraction localOffset y mo d h mi s hy hv 2 (ns / 10 ^ 6) (by norm_num)
    (by norm_num; omega)
  simpa using this

theorem timep_format_layout3 (localOffset : Int → Int) (y mo d h mi s ns : Nat) (hy : y ≤ 9999)
    (hv : ValidCivil y mo d h mi s) (hns : ns < 1000000000) :
    Timep (timeParse localOffset) Time.Local
      ((Time.mk (civilUnix y mo d h mi s) ns .utc).Format localOffset
        "2006-01-02T15:04:05.000000Z")
      = .ok ⟨civilUnix y mo d h mi s, ns / 1000 * 1000, .localZone⟩ := by
  have hfmt := format_dateTime localOffset _ _ _ chunksOf_layout3 y mo d h mi s ns hy hv
  simp only [List.map_cons, List.map_nil, List.flatten_cons, List.flatten_nil, List.nil_append,
    List.append_nil, formatStd, appendNano_digits ns 6 3 rfl hns] at hfmt
  rw [hfmt]
  have := timep_stamp_fraction localOffset y mo d h mi s hy hv 5 (ns / 10 ^ 3) (by norm_num)
    (by norm_num; omega)
  simpa using this

theorem timep_format_layout4 (localOffset : Int → Int) (y mo d h mi s ns : Nat) (hy : y ≤ 9999)
    (hv : ValidCivil y mo d h mi s) :
    Timep (timeParse localOffset) Time.Local
      ((Time.mk (civilUnix y mo d h mi s) ns .utc).Format localOffset "2006-01-02T15:04:05-07:00")
      = .ok ⟨civilUnix y mo d h mi s, 0, .localZone⟩ := by
  obtain ⟨hmo1, hmo2, hd, hh, hmi, hs⟩ := validCivil_bounds hv
  have hfmt := format_dateTime localOffset _ _ _ chunksOf_layout4 y mo d h mi s ns hy hv
  simp only [List.map_cons, List.map_nil, List.flatten_cons, List.flatten_nil, List.nil_append,
    List.append_nil, formatStd, Location.offsetAt, appendZone_zero_numeric] at hfmt
  rw [hfmt]
  have hy2 : y < 10000 := by omega
  have hp0 := parse_layout0_rest y mo d h mi s hy2 hmo1 hmo2 hd hh hmi hs '+'
    ['0', '0', ':', '0', '0'] (by rfl)
  have he0 := timeParse_error_of_parseChunks localOffset
    (String.mk (stampWith y mo d h mi s utcZoneChars)) chunksOf_layout0 hp0
  have he1 := timeParse_error_of_parseChunks localOffset
    (String.mk (stampWith y mo d h mi s utcZoneChars)) chunksOf_layout1
    (parse_layout1_zone y mo d h mi s hy2 hmo1 hmo2 hd hh hmi hs)
  have he2 := timeParse_error_of_parseChunks localOffset
    (String.mk (stampWith y mo d h mi s utcZoneChars)) chunksOf_layout2
    (parse_layout23_zone y mo d h mi s hy2 hmo1 hmo2 hd hh hmi hs 3 (Or.inl rfl))
  have he3 := timeParse_error_of_parseChunks localOffset
    (String.mk (stampWith y mo d h mi s utcZoneChars)) chunksOf_layout3
    (parse_layout23_zone y mo d h mi s hy2 hmo1 hmo2 hd hh hmi hs 6 (Or.inr rfl))
  obtain ⟨loc, hf⟩ := finishParse_zone localOffset y mo d h mi s hy hv
  have hok := timeParse_ok_of_parseChunks localOffset
    (String.mk (stampWith y mo d h mi s utcZoneChars)) chunksOf_layout4
    (parse_layout4_zone y mo d h mi s hy2 hmo1 hmo2 hd hh hmi hs) hf
  show Timep (timeParse localOffset) Time.Local
    (String.mk (stampWith y mo d h mi s utcZoneChars)) = _
  unfold Timep formats
  rw [timepLoop_cons_error _ _ _ _ _ he0, timepLoop_cons_error _ _ _ _ _ he1,
    timepLoop_cons_error _ _ _ _ _ he2, timepLoop_cons_error _ _ _ _ _ he3,
    timepLoop_cons_ok _ _ _ _ _ _ hok]
  rfl

theorem format_RFC3339_utc (localOffset : Int → Int) (y mo d h mi s ns : Nat) (hy : y ≤ 9999)
    (hv : ValidCivil y mo d h mi s) :
    (Time.mk (civilUnix y mo d h mi s) ns .utc).Format localOffset RFC3339
      = String.mk (stampWith y mo d h mi s ['Z']) := by
  have hfmt := format_dateTime localOffset _ _ _ chunksOf_RFC3339 y mo d h mi s ns hy hv
  simp only [List.map_cons, List.map_nil, List.flatten_cons, List.flatten_nil, List.nil_append,
    List.append_nil, formatStd, Location.offsetAt, appendZone_zero_iso] at hfmt
  exact hfmt

/-- C5 (as amended): for every instant of the years 0000 to 9999, taken in
UTC, and every layout of `formats`, formatting the instant with the layout and
parsing the text with `Timep` gives back the same instant, truncated to the
precision of the layout; and for every text `YYYY-MM-DDTHH:MM:SSZ` that names
an existing date and time of day, `Timep` of it, converted to UTC and
formatted as RFC 3339, is the text itself. -/
theorem timep_round_trip (localOffset : Int → Int) :
    (∀ (sec : Int) (nsec : Nat), -62167219200 ≤ sec → sec ≤ 253402300799 →
      nsec < 1000000000 → ∀ layout ∈ formats,
        Timep (timeParse localOffset) Time.Local
          ((Time.mk sec nsec .utc).Format localOffset layout)
          = .ok ⟨sec, nsec / layoutUnit layout * layoutUnit layout, .localZone⟩) ∧
    (∀ y mo d h mi s : Nat, y ≤ 9999 → ValidCivil y mo d h mi s →
      ∃ t, Timep (timeParse localOffset) Time.Local (String.mk (stampWith y mo d h mi s ['Z']))
          = .ok t ∧
        t.UTC.Format localOffset RFC3339 = String.mk (stampWith y mo d h mi s ['Z'])) := by
  constructor
  · intro sec nsec h0 h1 hns layout hl
    obtain ⟨y, mo, d, h, mi, s, hy0, hy1, hv, hU⟩ := exists_civil_of_unix sec h0 h1
    obtain ⟨Y, rfl⟩ := Int.eq_ofNat_of_zero_le hy0
    have hY : Y ≤ 9999 := by omega
    subst hU
    have hsec : nsec / 1000000000 * 1000000000 = 0 := by
      rw [Nat.div_eq_of_lt hns]
    simp only [formats, List.mem_cons, List.mem_singleton, List.not_mem_nil, or_false] at hl
    rcases hl with rfl | rfl | rfl | rfl | rfl
    · rw [timep_format_layout0 localOffset Y mo d h mi s nsec hY hv]
      simp [layoutUnit, hsec]
    · rw [timep_format_layout1 localOffset Y mo d h mi s nsec hY hv]
      simp [layoutUnit, hsec]
    · rw [timep_format_layout2 localOffset Y mo d h mi s nsec hY hv hns]
      simp [layoutUnit]
    · rw [timep_format_layout3 localOffset Y mo d h mi s nsec hY hv hns]
      simp [layoutUnit]
    · rw [timep_format_layout4 localOffset Y mo d h mi s nsec hY hv]
      simp [layoutUnit, hsec]
  · intro y mo d h mi s hy hv
    refine ⟨_, timep_stamp_Z localOffset y mo d h mi s hy hv, ?_⟩
    exact format_RFC3339_utc localOffset y mo d h mi s 0 hy hv

theorem validCivil_sample : ValidCivil (2023 : Nat) 2 3 18 19 20 := by
  simp [ValidCivil, daysIn, isLeap, daysBefore]

/-- C5, witness: the timestamp of `TestTimep`. -/
theorem timep_round_trip_witness :
    ∃ t, Timep (timeParse (fun _ => 3600)) Time.Local "2023-02-03T18:19:20Z" = .ok t ∧
      t.UTC.Format (fun _ => 3600) RFC3339 = "2023-02-03T18:19:20Z" :=
  (timep_round_trip (fun _ => 3600)).2 2023 2 3 18 19 20 (by norm_num) validCivil_sample

theorem parse_five_digit_year (more : List (List Char × Std)) (tail : List Char) :
    parseChunks (dateTimeChunks ++ more) tail {}
      ['1', '0', '0', '0', '0', '-', '0', '1', '-', '0', '1', 'T', '0', '0', ':', '0', '0', ':',
        '0', '0'] = none := by
  simp [dateTimeChunks, parseChunks, skip_nil, parseStd, isDigitChar, atoi, atoiDigits,
    leadingInt, digitVal, skip_cons_ne '0' '-' _ _ (by decide) (by decide)]

theorem format_year_10000 :
    (Time.mk 253402300800 0 .utc).Format (fun _ => 0) "2006-01-02T15:04:05"
      = "10000-01-01T00:00:00" := by
  have hciv : civil (fun _ => 0) ⟨253402300800, 0, .utc⟩ = (10000, 1, 1, 0, 0, 0) := by rfl
  have e2 : ∀ n : Nat, n < 100 → appendInt (n : Int) 2 = fixedDigits 2 n :=
    fun n hn => appendInt_nat 1 n (by norm_num; exact hn)
  have hdig : decimalDigits 10000 = ['1', '0', '0', '0', '0'] := by
    rw [decimalDigits, if_neg (by norm_num), decimalDigits, if_neg (by norm_num),
      decimalDigits, if_neg (by norm_num), decimalDigits, if_neg (by norm_num),
      decimalDigits, if_pos (by norm_num)]
    rfl
  have e5 : appendInt (10000 : Int) 4 = ['1', '0', '0', '0', '0'] := by
    unfold appendInt
    rw [show (10000 : Int).natAbs = 10000 from rfl, hdig]
    rfl
  unfold Time.Format
  rw [chunksOf_layout0]
  simp only [dateTimeChunks, List.map_cons, List.map_nil, formatStd, hciv, List.flatten_cons,
    List.flatten_nil, e5]
  have h1 := e2 1 (by norm_num)
  have h0 := e2 0 (by norm_num)
  simp only [Nat.cast_one, Nat.cast_zero] at h1 h0
  simp only [Nat.cast_ofNat, Nat.cast_one, CharP.cast_eq_zero, h1, h0]
  rfl

theorem timep_year_10000 :
    Timep (timeParse (fun _ => 0)) Time.Local "10000-01-01T00:00:00"
      = .error (.explicit "10000-01-01T00:00:00") := by
  have h0 := parse_five_digit_year [] []
  rw [List.append_nil] at h0
  have e0 := timeParse_error_of_parseChunks (fun _ => 0) "10000-01-01T00:00:00"
    chunksOf_layout0 h0
  have h1 := parse_five_digit_year [] ['Z']
  rw [List.append_nil] at h1
  have e1 := timeParse_error_of_parseChunks (fun _ => 0) "10000-01-01T00:00:00"
    chunksOf_layout1 h1
  have e2 := timeParse_error_of_parseChunks (fun _ => 0) "10000-01-01T00:00:00"
    chunksOf_layout2 (parse_five_digit_year _ _)
  have e3 := timeParse_error_of_parseChunks (fun _ => 0) "10000-01-01T00:00:00"
    chunksOf_layout3 (parse_five_digit_year _ _)
  have e4 := timeParse_error_of_parseChunks (fun _ => 0) "10000-01-01T00:00:00"
    chunksOf_layout4 (parse_five_digit_year _ _)
  unfold Timep formats
  rw [timepLoop_cons_error _ _ _ _ _ e0, timepLoop_cons_error _ _ _ _ _ e1,
    timepLoop_cons_error _ _ _ _ _ e2, timepLoop_cons_error _ _ _ _ _ e3,
    timepLoop_cons_error _ _ _ _ _ e4]
  rfl

theorem format_fixed_zone :
    (Time.mk 1675448360 0 (.fixed 32400)).Format (fun _ => 0) "2006-01-02T15:04:05"
      = "2023-02-04T03:19:20" := by
  have hciv : civil (fun _ => 0) ⟨1675448360, 0, .fixed 32400⟩
      = (((2023 : Nat) : Int), 2, 4, 3, 19, 20) := by rfl
  have h := format_of_civil (fun _ => 0) "2006-01-02T15:04:05" [] []
    (by rw [List.append_nil]; exact chunksOf_layout0) _ 2023 2 4 3 19 20 hciv
    (by norm_num) (by norm_num) (by norm_num) (by norm_num) (by norm_num) (by norm_num)
  rw [h]
  rfl

/-- C5, counterexample: the instant 10000-01-01T00:00:00 UTC is formatted with
five year digits, which no layout of `formats` parses, so `Timep` panics; and
the instant 2023-02-03T18:19:20 UTC held in a zone nine hours east is
formatted with the first layout as its wall clock 03:19:20, which `Timep`
reads as UTC, an instant nine hours later. -/
theorem timep_round_trip_fails :
    Timep (timeParse (fun _ => 0)) Time.Local
        ((Time.mk 253402300800 0 .utc).Format (fun _ => 0) "2006-01-02T15:04:05")
      = .error (.explicit "10000-01-01T00:00:00") ∧
    Timep (timeParse (fun _ => 0)) Time.Local
        ((Time.mk 1675448360 0 (.fixed 32400)).Format (fun _ => 0) "2006-01-02T15:04:05")
      = .ok ⟨1675480760, 0, .localZone⟩ := by
  constructor
  · rw [format_year_10000]
    exact timep_year_10000
  · rw [format_fixed_zone]
    have hv : ValidCivil (2023 : Nat) 2 4 3 19 20 := by
      simp [ValidCivil, daysIn, isLeap, daysBefore]
    have h := timep_stamp_plain (fun _ => 0) 2023 2 4 3 19 20 (by norm_num) hv
    have hu : civilUnix (2023 : Nat) 2 4 3 19 20 = 1675480760 := by rfl
    rw [hu] at h
    exact h

end Bsky
